import Mathlib

/-!
# notepad-desktop: card grid, note store and editor

A shallow embedding of `src/main.cpp` (the current program) and of
`src/unnamed/part_000` (the earlier copy, which holds the `WM_LBUTTONDOWN`
hit-test loop).

Conventions of the embedding.
* `int`, `LONG` and `intptr_t` values are `Int`; the arithmetic of the program
  (a few additions of small constants) is taken without wrap-around.
* A `Text` is the content of a NUL-terminated C string, one element per `char`:
  every text of the program travels through `char*` interfaces
  (`GetWindowTextA`, `sqlite3_bind_text` with length `-1`,
  `sqlite3_column_text`). `Char.toNat` of an element is the value of the `char`
  as `unsigned char`, so a letter outside ASCII that `GetWindowTextA` delivers
  in the ANSI code page is one element of value 128 to 255.
* The SQLite engine and the Win32 scroll bar are not part of the repository;
  they are modelled after their documentation, and what the engine may answer
  to a statement (prepare or step failing) is an explicit `Engine` argument.
-/

namespace Notepad

/-! ## Data model -/

/-- Character content of a C string -/
abbrev Text := List Char

/-- One row of table `notes(id INTEGER PRIMARY KEY AUTOINCREMENT, title TEXT, content TEXT)`;
`none` is SQL NULL -/
structure Row where
  id : Int
  title : Option Text
  content : Option Text
deriving DecidableEq, Repr

/-- The open database: the rows of `notes` and the `sqlite_sequence` counter
that AUTOINCREMENT keeps for the table -/
structure Db where
  rows : List Row
  seq : Int
deriving DecidableEq, Repr

/-- The `struct Note` of the program -/
structure Note where
  id : Int
  title : Text
  content : Text
deriving DecidableEq, Repr

/-- The Win32 `RECT` -/
structure RECT where
  left : Int
  top : Int
  right : Int
  bottom : Int
deriving DecidableEq, Repr

/-- The `struct CardInfo` of the program -/
structure CardInfo where
  rc : RECT
  noteId : Int
deriving DecidableEq, Repr

/-- The child windows created for one card: the card frame at `(x, y)` of
size `w * h`, its title label and its content label -/
structure CardWin where
  x : Int
  y : Int
  w : Int
  h : Int
  title : Text
  preview : Text
deriving DecidableEq, Repr

/-- What the engine answers to one statement: whether `sqlite3_prepare_v2`
returns `SQLITE_OK`, and the 0-based index of the `sqlite3_step` call that
fails, if one does -/
structure Engine where
  prepareOk : Bool
  failAt : Option Nat
deriving DecidableEq, Repr

/-- An engine that answers every call without error -/
def Engine.healthy : Engine := ⟨true, none⟩

/-! ## SQLite: LIKE, ORDER BY, AUTOINCREMENT -/

/-- ASCII case folding of a `char`: only the upper-case letters A to Z change -/
def toLowerAscii (c : Char) : Char :=
  if 65 ≤ c.toNat ∧ c.toNat ≤ 90 then Char.ofNat (c.toNat + 32) else c

/-- The table `sqlite3Utf8Trans1` at index `b - 0xc0`: the payload bits of the
lead byte `b` of a multi-byte UTF-8 sequence -/
def utf8Trans1 (b : Nat) : Nat :=
  if b < 0xE0 then b - 0xC0
  else if b < 0xF0 then b - 0xE0
  else if b < 0xF8 then b - 0xF0
  else if b < 0xFC then b - 0xF8
  else if b < 0xFE then b - 0xFC
  else 0

/-- The last step of `sqlite3Utf8Read` on a multi-byte sequence: an overlong
value below 0x80, a surrogate and 0xFFFE, 0xFFFF become U+FFFD -/
def utf8Fix (c : Nat) : Nat :=
  if c < 0x80 ∨ c / 2048 = 27 ∨ c / 2 = 32767 then 0xFFFD else c

/-- The code points `sqlite3Utf8Read` reads from a C string, one call after the
other. `pending` is the 32-bit value of a multi-byte sequence whose lead byte
(0xc0 or more) has been read: every following byte 0x80 to 0xbf is shifted
into it. A byte below 0xc0 that follows no lead byte is a code point itself. -/
def utf8DecodeFrom : Option Nat → Text → List Nat
  | none, [] => []
  | some c, [] => [utf8Fix c]
  | none, b :: rest =>
    if 0xC0 ≤ b.toNat then utf8DecodeFrom (some (utf8Trans1 b.toNat)) rest
    else b.toNat :: utf8DecodeFrom none rest
  | some c, b :: rest =>
    if 0x80 ≤ b.toNat ∧ b.toNat < 0xC0 then
      utf8DecodeFrom (some ((c * 64 + b.toNat % 64) % 4294967296)) rest
    else if 0xC0 ≤ b.toNat then
      utf8Fix c :: utf8DecodeFrom (some (utf8Trans1 b.toNat)) rest
    else utf8Fix c :: b.toNat :: utf8DecodeFrom none rest

/-- The code points of a text as LIKE reads them -/
def utf8Decode (s : Text) : List Nat := utf8DecodeFrom none s

/-- The `sqlite3Tolower` folding of LIKE on a code point: only the ASCII
upper-case letters change -/
def tolowerCode (c : Nat) : Nat :=
  if 65 ≤ c ∧ c ≤ 90 then c + 32 else c

/-- The part of LIKE after a `%`: the rest of the pattern `k` is tried at
every suffix of the text -/
def likeStar (k : List Nat → Bool) : List Nat → Bool
  | [] => k []
  | c :: s => k (c :: s) || likeStar k s

/-- The `patternCompare` of SQLite for LIKE without ESCAPE clause, on the code
points of pattern and text: `%` (37) matches any run of code points, `_` (95)
any one code point, any other code point itself up to ASCII case -/
def likeCodes : List Nat → List Nat → Bool
  | [], s => s.isEmpty
  | p :: ps, s =>
    if p = 37 then likeStar (likeCodes ps) s
    else match s with
      | [] => false
      | d :: s' => (p = 95 || tolowerCode p = tolowerCode d) && likeCodes ps s'

/-- The SQLite operator `text LIKE pattern` without ESCAPE clause: both C
strings are read as UTF-8, code point by code point, and compared by
`patternCompare` -/
def likeMatch (pattern text : Text) : Bool :=
  likeCodes (utf8Decode pattern) (utf8Decode text)

/-- LIKE on a column value: NULL LIKE p is NULL, which selects nothing -/
def likeCol (pattern : Text) : Option Text → Bool
  | none => false
  | some s => likeMatch pattern s

/-- The order of `ORDER BY id DESC`: `a` may come before `b` -/
def idDesc (a b : Row) : Prop := b.id ≤ a.id

instance : DecidableRel idDesc := fun a b => inferInstanceAs (Decidable (b.id ≤ a.id))

instance : IsTotal Row idDesc := ⟨fun a b => le_total b.id a.id⟩

instance : IsTrans Row idDesc := ⟨fun _ _ _ hab hbc => le_trans hbc hab⟩

/-- Reading one result row in `fetchNotes`: a NULL text column becomes "" -/
def rowToNote (r : Row) : Note :=
  ⟨r.id, r.title.getD [], r.content.getD []⟩

/-- The rows the statement of `fetchNotes(q)` selects: all of them for the empty
`q`, else those with `title LIKE p OR content LIKE p` for `p = "%" + q + "%"` -/
def selectRows (d : Db) (q : Text) : List Row :=
  if q.isEmpty then d.rows
  else
    let p : Text := '%' :: (q ++ ['%'])
    d.rows.filter (fun r => likeCol p r.title || likeCol p r.content)

/-- The `fetchNotes(q)` of the program: the selected rows in the order of
`ORDER BY id DESC`, read one per successful `sqlite3_step` -/
def fetchNotes (db : Option Db) (eng : Engine) (q : Text) : List Note :=
  match db with
  | none => []
  | some d =>
    if !eng.prepareOk then []
    else
      let ordered := (selectRows d q).insertionSort idDesc
      let stepped := match eng.failAt with
        | none => ordered
        | some k => ordered.take k
      stepped.map rowToNote

/-- The rowid AUTOINCREMENT gives a new row: one more than the largest rowid
the table holds or has ever held -/
def nextRowid (d : Db) : Int :=
  (d.rows.map Row.id).foldr max d.seq + 1

/-- The `insertNotePrepared(title, content)` of the program: the result and the
database afterwards -/
def insertNotePrepared (db : Option Db) (eng : Engine) (title content : Text) :
    Bool × Option Db :=
  match db with
  | none => (false, none)
  | some d =>
    if !eng.prepareOk then (false, some d)
    else if eng.failAt = some 0 then (false, some d)
    else
      (true, some { rows := d.rows ++ [⟨nextRowid d, some title, some content⟩],
                    seq := nextRowid d })

/-- The `updateNotePrepared(id, title, content)` of the program: the result and
the database afterwards -/
def updateNotePrepared (db : Option Db) (eng : Engine) (id : Int) (title content : Text) :
    Bool × Option Db :=
  match db with
  | none => (false, none)
  | some d =>
    if !eng.prepareOk then (false, some d)
    else if eng.failAt = some 0 then (false, some d)
    else
      (true, some { d with rows := d.rows.map (fun r =>
        if r.id = id then { r with title := some title, content := some content } else r) })

/-! ## Win32: window text and the scroll bar -/

/-- The Win32 call `GetWindowTextA(h, buf, n)`: at most `n - 1` characters are copied -/
def getWindowTextA (text : Text) (n : Nat) : Text := text.take (n - 1)

/-- The state a window keeps for its vertical scroll bar -/
structure ScrollBar where
  nMin : Int
  nMax : Int
  nPage : Int
  nPos : Int
deriving DecidableEq, Repr

/-- The range checking `SetScrollInfo` performs on every call: the page is
brought into `0 .. nMax - nMin + 1` and the position into
`nMin .. nMax - max (nPage - 1) 0` -/
def ScrollBar.validate (sb : ScrollBar) : ScrollBar :=
  let page := if sb.nPage < 0 then 0
    else if sb.nPage > sb.nMax - sb.nMin + 1 then sb.nMax - sb.nMin + 1 else sb.nPage
  let top := sb.nMax - max (page - 1) 0
  let pos := if sb.nPos < sb.nMin then sb.nMin else if sb.nPos > top then top else sb.nPos
  { sb with nPage := page, nPos := pos }

/-- The call `SetScrollInfo` with `SIF_RANGE | SIF_PAGE`; an inverted range is
stored as the empty range `0 .. 0` -/
def setScrollRangePage (sb : ScrollBar) (nMin nMax nPage : Int) : ScrollBar :=
  let sb1 := { sb with nPage := nPage }
  let sb2 := if nMin > nMax then { sb1 with nMin := 0, nMax := 0 }
    else { sb1 with nMin := nMin, nMax := nMax }
  sb2.validate

/-- The call `SetScrollInfo` with `SIF_POS` -/
def setScrollPos (sb : ScrollBar) (nPos : Int) : ScrollBar :=
  ({ sb with nPos := nPos }).validate

/-! ## The main window: globals, `clearCards`, `showNotes` -/

/-- The globals of the main window together with the controls they refer to -/
structure App where
  db : Option Db
  hSearchBox : Option Text
  g_cards : List CardInfo
  g_scrollY : Int
  g_totalHeight : Int
  cardWins : List CardWin
  sb : ScrollBar
deriving DecidableEq, Repr

/-- The locals `margin`, `cardW` and `cardH` of `showNotes` -/
def margin : Int := 10
def cardW : Int := 180
def cardH : Int := 110

/-- The `clearCards` of the program: every child but the search box and the add
button is destroyed, and `g_cards` is emptied -/
def clearCards (a : App) : App :=
  { a with cardWins := [], g_cards := [] }

/-- The content preview of a card: `n.content`, cut to 300 characters and
followed by "..." when it is longer -/
def contentPreview (content : Text) : Text :=
  if content.length > 300 then content.take 300 ++ ['.', '.', '.'] else content

/-- The local variables of the loop of `showNotes` together with the globals
the loop writes -/
structure Cursor where
  x : Int
  y : Int
  col : Int
  cards : List CardInfo
  wins : List CardWin
deriving DecidableEq, Repr

/-- One iteration of the loop of `showNotes` -/
def showStep (st : Cursor) (n : Note) : Cursor :=
  let win : CardWin := ⟨st.x, st.y, cardW, cardH, n.title, contentPreview n.content⟩
  let rc : RECT := ⟨st.x, st.y, st.x + cardW, st.y + cardH⟩
  let cards := st.cards ++ [⟨rc, n.id⟩]
  let wins := st.wins ++ [win]
  let col := st.col + 1
  if col = 2 then
    { x := margin, y := st.y + (cardH + margin), col := 0, cards := cards, wins := wins }
  else
    { x := st.x + (cardW + margin), y := st.y, col := col, cards := cards, wins := wins }

/-- The body of `showNotes` after the query: the layout loop over `notes`
starting from the cleared card list, then the scroll range -/
def renderNotes (a : App) (notes : List Note) : App :=
  let start : Cursor :=
    { x := margin, y := 50 - a.g_scrollY, col := 0, cards := a.g_cards, wins := a.cardWins }
  let fin := notes.foldl showStep start
  let total := fin.y + cardH + margin
  { a with g_cards := fin.cards, cardWins := fin.wins, g_totalHeight := total,
           sb := setScrollRangePage a.sb 0 total 500 }

/-- The text `showNotes` hands to `fetchNotes`: the argument `search`, or the
first 511 characters of the search box when `search` is empty -/
def queryText (a : App) (search : Text) : Text :=
  let buf : Text := match a.hSearchBox with
    | none => []
    | some t => getWindowTextA t 512
  if search.isEmpty then buf else search

/-- The `showNotes(hwndParent, search)` of the program -/
def showNotes (a : App) (eng : Engine) (search : Text) : App :=
  let q := queryText a search
  let a1 := clearCards a
  renderNotes a1 (fetchNotes a1.db eng q)

/-- The cards the layout loop produces for `notes` at scroll offset `s`,
starting from an empty card list -/
def layout (notes : List Note) (s : Int) : List CardInfo :=
  (notes.foldl showStep
    { x := margin, y := 50 - s, col := 0, cards := [], wins := [] }).cards

/-! ## The hit-test of `WM_LBUTTONDOWN` -/

/-- The loop of `WM_LBUTTONDOWN` over `g_cards`: the note id of the editor it
opens, if it opens one -/
def hitTest (x y : Int) : List CardInfo → Option Int
  | [] => none
  | ci :: rest =>
    if x ≥ ci.rc.left ∧ x ≤ ci.rc.right ∧ y ≥ ci.rc.top ∧ y ≤ ci.rc.bottom then
      some ci.noteId
    else hitTest x y rest

/-- The Win32 macros `LOWORD` and `HIWORD`: bits 0..15 and 16..31, unsigned -/
def LOWORD (l : Int) : Int := l % 65536
def HIWORD (l : Int) : Int := (l / 65536) % 65536

/-- The `WM_LBUTTONDOWN` case of `WndProc`: the point is unpacked from `lParam` -/
def onLButtonDown (a : App) (lParam : Int) : Option Int :=
  hitTest (LOWORD lParam) (HIWORD lParam) a.g_cards

/-! ## Closed form of the layout -/

/-- A point lies in a rectangle, the four edges included -/
def ptInRect (x y : Int) (rc : RECT) : Prop :=
  rc.left ≤ x ∧ x ≤ rc.right ∧ rc.top ≤ y ∧ y ≤ rc.bottom

instance (x y : Int) (rc : RECT) : Decidable (ptInRect x y rc) := by
  unfold ptInRect; infer_instance

/-- The rectangle of the 2-column flow at index `i` for scroll offset `s` -/
def gridRect (s : Int) (i : Nat) : RECT :=
  { left := 10 + 190 * ((i : Int) % 2)
    top := 50 - s + 120 * ((i : Int) / 2)
    right := 10 + 190 * ((i : Int) % 2) + 180
    bottom := 50 - s + 120 * ((i : Int) / 2) + 110 }

/-- The card of the 2-column flow at index `i` for note `n` -/
def gridCard (s : Int) (i : Nat) (n : Note) : CardInfo := ⟨gridRect s i, n.id⟩

/-- The cards of the 2-column flow for `notes`, the first at index `k` -/
def gridFrom (s : Int) : Nat → List Note → List CardInfo
  | _, [] => []
  | k, n :: ns => gridCard s k n :: gridFrom s (k + 1) ns

/-- The loop variables before the iteration of index `k` -/
def Cursor.AtIndex (s : Int) (k : Nat) (st : Cursor) : Prop :=
  st.col = (k : Int) % 2 ∧ st.x = 10 + 190 * ((k : Int) % 2) ∧
    st.y = 50 - s + 120 * ((k : Int) / 2)

/-! ## Case folding -/

/-- A text with its ASCII upper-case letters folded to lower case -/
def foldText (s : Text) : Text := s.map toLowerAscii

/-- Containment of `q` in the title or in the content of a note, up to ASCII case -/
def containsFolded (q : Text) (n : Note) : Bool :=
  decide (foldText q <:+: foldText n.title) || decide (foldText q <:+: foldText n.content)

/-! ## The main window: `WM_VSCROLL` -/

/-- The scroll request in `LOWORD(wParam)` of `WM_VSCROLL`; `SB_OTHER` is any
request the switch does not list -/
inductive ScrollCode where
  | SB_LINEUP
  | SB_LINEDOWN
  | SB_PAGEUP
  | SB_PAGEDOWN
  | SB_THUMBTRACK
  | SB_OTHER
deriving DecidableEq, Repr

/-- The `WM_VSCROLL` case of `WndProc`; `nTrackPos` is the thumb position that
`GetScrollInfo` reports -/
def onVScroll (a : App) (code : ScrollCode) (nTrackPos : Int) : App :=
  let yPos := a.sb.nPos
  let nPos := match code with
    | .SB_LINEUP => yPos - 20
    | .SB_LINEDOWN => yPos + 20
    | .SB_PAGEUP => yPos - a.sb.nPage
    | .SB_PAGEDOWN => yPos + a.sb.nPage
    | .SB_THUMBTRACK => nTrackPos
    | .SB_OTHER => yPos
  let sb1 := setScrollPos a.sb nPos
  if sb1.nPos ≠ yPos then
    { a with sb := sb1, g_scrollY := sb1.nPos,
             cardWins := a.cardWins.map (fun w => { w with y := w.y + (yPos - sb1.nPos) }) }
  else { a with sb := sb1 }

/-- What the main window receives after start-up: a scroll request, or a
refresh (`EN_CHANGE` or `MSG_REFRESH`) whose query returns `notes` -/
inductive Event where
  | scroll (code : ScrollCode) (nTrackPos : Int)
  | refresh (notes : List Note)
deriving DecidableEq, Repr

/-- The main window handles one event -/
def handle (a : App) : Event → App
  | .scroll code nTrackPos => onVScroll a code nTrackPos
  | .refresh notes => renderNotes (clearCards a) notes

/-- The main window handles a sequence of events, first to last -/
def run (a : App) (events : List Event) : App := events.foldl handle a

/-- The main window before `WM_CREATE` has shown the notes: the globals as
initialised, an empty search box, the default scroll range 0 .. 100 -/
def created (db : Option Db) : App :=
  { db := db, hSearchBox := some [], g_cards := [], g_scrollY := 0, g_totalHeight := 0,
    cardWins := [], sb := ⟨0, 100, 0, 0⟩ }

/-- The main window after `WM_CREATE`, whose `showNotes(hwnd, "")` found `notes` -/
def startup (db : Option Db) (notes : List Note) : App :=
  renderNotes (clearCards (created db)) notes

/-! ## The editor window: `NoteWndProc` -/

/-- A window handle -/
abbrev HWND := Nat

/-- The message `MSG_REFRESH = WM_USER + 1` -/
def MSG_REFRESH : Nat := 1024 + 1

/-- A child control (a label or an edit field): its handle, its parent window
and its text -/
structure Control where
  hwnd : HWND
  parent : HWND
  text : Text
deriving DecidableEq, Repr

/-- The state `NoteWndProc` works on: the database, `hMainWnd`, the controls
that exist, the next handle `CreateWindow` gives out, the three static
variables of `NoteWndProc`, and the messages posted so far -/
structure Desk where
  db : Option Db
  hMainWnd : Option HWND
  controls : List Control
  nextHwnd : HWND
  hTitleEdit : Option HWND
  hContentEdit : Option HWND
  noteId : Int
  posted : List (HWND × Nat)
deriving DecidableEq, Repr

/-- The Win32 call `CreateWindow` for a child control of `parent` -/
def createControl (k : Desk) (parent : HWND) (text : Text) : Desk × HWND :=
  ({ k with controls := k.controls ++ [⟨k.nextHwnd, parent, text⟩],
            nextHwnd := k.nextHwnd + 1 }, k.nextHwnd)

/-- The Win32 call `SetWindowTextA`; also what typing into a field does -/
def setWindowText (k : Desk) (h : Option HWND) (text : Text) : Desk :=
  { k with controls := k.controls.map (fun c =>
      if some c.hwnd = h then { c with text := text } else c) }

/-- The whole text of a window, as `WM_CLOSE` reads it with
`GetWindowTextLengthA` and `GetWindowTextA`; a NULL or dead handle has none -/
def windowText (k : Desk) (h : Option HWND) : Text :=
  match k.controls.find? (fun c => some c.hwnd = h) with
  | some c => c.text
  | none => []

/-- The query `SELECT title, content FROM notes WHERE id = ? LIMIT 1` of
`WM_CREATE`: the row the first step returns, if it returns one -/
def selectById (d : Db) (eng : Engine) (id : Int) : Option Row :=
  if !eng.prepareOk then none
  else if eng.failAt = some 0 then none
  else d.rows.find? (fun r => r.id = id)

/-- The first half of `WM_CREATE` in `NoteWndProc`: the creation parameter goes
to the static `noteId`, the two labels and the two edit fields are created, and
the static handles take the fields -/
def noteCreateFields (k : Desk) (hwnd : HWND) (lpCreateParams : Int) : Desk :=
  let k0 := { k with noteId := lpCreateParams }
  let k1 := (createControl k0 hwnd "Judul:".toList).1
  let (k2, hT) := createControl k1 hwnd []
  let k3 := { k2 with hTitleEdit := some hT }
  let k4 := (createControl k3 hwnd "Isi Catatan:".toList).1
  let (k5, hC) := createControl k4 hwnd []
  { k5 with hContentEdit := some hC }

/-- The statement `if (t) SetWindowTextA(h, t)` on a column value -/
def setTextIfText (k : Desk) (h : Option HWND) : Option Text → Desk
  | some t => setWindowText k h t
  | none => k

/-- The second half of `WM_CREATE` in `NoteWndProc`: with `noteId > 0` and the
database open, the stored title and content are loaded into the fields -/
def preloadNote (k : Desk) (eng : Engine) : Desk :=
  match k.db with
  | none => k
  | some d =>
    if k.noteId > 0 then
      match selectById d eng k.noteId with
      | none => k
      | some row =>
        setTextIfText (setTextIfText k k.hTitleEdit row.title) k.hContentEdit row.content
    else k

/-- The `WM_CREATE` case of `NoteWndProc` for the editor window `hwnd` created
with `lpCreateParams` -/
def noteCreate (k : Desk) (eng : Engine) (hwnd : HWND) (lpCreateParams : Int) : Desk :=
  preloadNote (noteCreateFields k hwnd lpCreateParams) eng

/-- The `WM_CLOSE` case of `NoteWndProc` for the editor window `hwnd` -/
def noteClose (k : Desk) (eng : Engine) (hwnd : HWND) : Desk :=
  let title := windowText k k.hTitleEdit
  let content := windowText k k.hContentEdit
  let hasContent := !content.isEmpty
  let db1 :=
    if hasContent then
      if k.noteId > 0 then (updateNotePrepared k.db eng k.noteId title content).2
      else (insertNotePrepared k.db eng title content).2
    else k.db
  let posted1 := match k.hMainWnd with
    | some w => k.posted ++ [(w, MSG_REFRESH)]
    | none => k.posted
  { k with db := db1, posted := posted1,
           controls := k.controls.filter (fun c => c.parent ≠ hwnd) }

/-- The messages `NoteWndProc` handles itself -/
inductive NoteMsg where
  | WM_CREATE (lpCreateParams : Int)
  | WM_CLOSE
deriving DecidableEq, Repr

/-- The `NoteWndProc(hwnd, msg, ...)` of the program -/
def NoteWndProc (k : Desk) (eng : Engine) (hwnd : HWND) : NoteMsg → Desk
  | .WM_CREATE lpCreateParams => noteCreate k eng hwnd lpCreateParams
  | .WM_CLOSE => noteClose k eng hwnd

/-- One editor, opened and filled in: `WM_CREATE` with `noteId`, then the user
leaves `title` and `content` in its two fields -/
def editorFilled (k : Desk) (engCreate : Engine) (hwnd : HWND) (noteId : Int)
    (title content : Text) : Desk :=
  let k1 := NoteWndProc k engCreate hwnd (.WM_CREATE noteId)
  let k2 := setWindowText k1 k1.hTitleEdit title
  setWindowText k2 k2.hContentEdit content

/-- One editor from open to close: `WM_CREATE` with `noteId`, the user leaves
`title` and `content` in the two fields, `WM_CLOSE` -/
def editSession (k : Desk) (engCreate engClose : Engine) (hwnd : HWND) (noteId : Int)
    (title content : Text) : Desk :=
  NoteWndProc (editorFilled k engCreate hwnd noteId title content) engClose hwnd .WM_CLOSE

/-- A control with handle `h` exists -/
def hasControl (k : Desk) (h : HWND) : Prop := ∃ c ∈ k.controls, c.hwnd = h

/-- The desk `k1` differs from `k` in the texts of controls only -/
def sameButTexts (k k1 : Desk) : Prop :=
  k1.db = k.db ∧ k1.noteId = k.noteId ∧ k1.hMainWnd = k.hMainWnd ∧ k1.posted = k.posted ∧
    k1.hTitleEdit = k.hTitleEdit ∧ k1.hContentEdit = k.hContentEdit ∧
    ∀ h : HWND, hasControl k h → hasControl k1 h

/-- What start-up and every event keep true of the scroll state: the range
starts at 0 and ends at `g_totalHeight` (at 0 when that is negative), the
scroll position lies in the range, and `g_scrollY` is not negative -/
def scrollInv (a : App) : Prop :=
  a.sb.nMin = 0 ∧ 0 ≤ a.sb.nPos ∧ a.sb.nPos ≤ a.sb.nMax ∧
    a.sb.nMax = (if 0 > a.g_totalHeight then 0 else a.g_totalHeight) ∧ 0 ≤ a.g_scrollY

/-! ## The main window: `MSG_REFRESH` and `EN_CHANGE` -/

/-- The buffer `q[256]` of the two refresh handlers after
`GetWindowTextA(hSearchBox, q, sizeof(q))`; it stays empty for a NULL handle -/
def searchBuffer (a : App) : Text :=
  match a.hSearchBox with
  | none => []
  | some t => getWindowTextA t 256

/-- The `MSG_REFRESH` case of `WndProc` -/
def onRefresh (a : App) (eng : Engine) : App :=
  showNotes a eng (searchBuffer a)

/-- The `WM_COMMAND` case of `WndProc` for `ID_SEARCH` with `EN_CHANGE` -/
def onSearchChange (a : App) (eng : Engine) : App :=
  showNotes a eng (searchBuffer a)

/-! ## Several editors -/

/-- What happens to the editor windows: `WndProc` creates one (`ID_BTN_ADD`
with `noteId = 0`, `WM_LBUTTONDOWN` with the id of the card hit), which sends
`WM_CREATE` to `NoteWndProc`; the user leaves a text in a control; the user
closes an editor, which sends `WM_CLOSE` -/
inductive EditorEvent where
  | opened (hwnd : HWND) (noteId : Int)
  | typed (control : HWND) (text : Text)
  | closed (hwnd : HWND)
deriving DecidableEq, Repr

/-- One editor event, the engine answering as `eng` -/
def editorStep (eng : Engine) (k : Desk) : EditorEvent → Desk
  | .opened hwnd noteId => NoteWndProc k eng hwnd (.WM_CREATE noteId)
  | .typed control text => setWindowText k (some control) text
  | .closed hwnd => NoteWndProc k eng hwnd .WM_CLOSE

/-- A sequence of editor events, first to last -/
def editorRun (eng : Engine) (k : Desk) (events : List EditorEvent) : Desk :=
  events.foldl (editorStep eng) k

/-- Code points with their ASCII upper-case letters folded to lower case -/
def foldCodes (l : List Nat) : List Nat := l.map tolowerCode

/-! ## Sample data -/

def noteShopping : Note := ⟨1, "Shopping".toList, "milk eggs".toList⟩
def noteWork : Note := ⟨2, "Work".toList, "meeting notes".toList⟩
def noteTodo : Note := ⟨3, "Todo".toList, "call home".toList⟩

/-- Three notes as `fetchNotes` lists them, newest first -/
def threeNotes : List Note := [noteTodo, noteWork, noteShopping]

/-- A database holding the three sample notes -/
def sampleDb : Db :=
  { rows := [⟨1, some noteShopping.title, some noteShopping.content⟩,
             ⟨2, some noteWork.title, some noteWork.content⟩,
             ⟨3, some noteTodo.title, some noteTodo.content⟩],
    seq := 3 }

/-- A main window scrolled to 7 that still shows a card of a former render -/
def sampleApp : App :=
  { db := some sampleDb, hSearchBox := some [], g_cards := [⟨⟨0, 0, 5, 5⟩, 99⟩],
    g_scrollY := 7, g_totalHeight := 0, cardWins := [], sb := ⟨0, 100, 0, 7⟩ }

/-- A desk with the sample database, the main window 1 and no editor yet -/
def sampleDesk : Desk :=
  { db := some sampleDb, hMainWnd := some 1, controls := [], nextHwnd := 10,
    hTitleEdit := none, hContentEdit := none, noteId := 0, posted := [] }

/-- The editor 5 opened on note 2, its content field emptied by the user -/
def clearedEditor : Desk :=
  let k := NoteWndProc sampleDesk Engine.healthy 5 (.WM_CREATE 2)
  setWindowText k k.hContentEdit []

/-- Ten notes as `fetchNotes` lists them, ids 10 down to 1 -/
def tenNotes : List Note :=
  (List.range 10).map (fun i => ⟨10 - (i : Int), "note".toList, "text".toList⟩)

/-- The main window shows ten notes, the thumb is dragged to 200, then a
filter change leaves two notes -/
def scrolledThenFiltered : App :=
  run (startup (some sampleDb) tenNotes)
    [.scroll .SB_THUMBTRACK 200, .refresh [noteWork, noteShopping]]

/-- The sample main window with "milk" typed into its search box -/
def milkSearchApp : App := { sampleApp with hSearchBox := some "milk".toList }

/-- A search text of 256 characters -/
def longSearch : Text := List.replicate 256 'a'

/-- The sample main window with the 256 characters in its search box -/
def longSearchApp : App := { sampleApp with hSearchBox := some longSearch }

/-- Two editors for new notes, 5 and then 6, are open together. On the sample
desk editor 5 gets the controls 10 to 13 (title 11, content 13) and editor 6
the controls 14 to 17 (title 15, content 17). The user writes a note in each,
then closes 5 and then 6. -/
def twoNewEditors : List EditorEvent :=
  [.opened 5 0, .opened 6 0,
   .typed 11 "A".toList, .typed 13 "first".toList,
   .typed 15 "B".toList, .typed 17 "second".toList,
   .closed 5, .closed 6]

/-- Editor 5 is opened on note 1 and editor 6 on note 2 before 5 is closed; the
user changes the content in each, then closes 5. -/
def twoCardEditors : List EditorEvent :=
  [.opened 5 1, .opened 6 2,
   .typed 13 "milk eggs bread".toList, .typed 17 "moved".toList,
   .closed 5]

/-- A note whose content starts with the byte 0xE0, the letter a with grave
accent in the ANSI code page, which is not valid UTF-8 here -/
def noteMenu : Note := ⟨1, "Menu".toList, Char.ofNat 0xE0 :: " la carte milk".toList⟩

/-- A note whose content is the two bytes 0xC3 0xA9, the UTF-8 form of the
letter e with acute accent -/
def noteCafe : Note := ⟨2, "Cafe".toList, [Char.ofNat 0xC3, Char.ofNat 0xA9]⟩

/-- A database holding the two notes with accents -/
def accentDb : Db :=
  { rows := [⟨1, some noteMenu.title, some noteMenu.content⟩,
             ⟨2, some noteCafe.title, some noteCafe.content⟩],
    seq := 2 }

/-- Twenty notes as `fetchNotes` lists them, ids 20 down to 1 -/
def twentyNotes : List Note :=
  (List.range 20).map (fun i => ⟨20 - (i : Int), "note".toList, "text".toList⟩)

/-- The main window shows twenty notes, the thumb is dragged to 871, the end of
the scroll range, then a refresh finds the same twenty notes -/
def scrolledThenRefreshed : App :=
  run (startup (some sampleDb) twentyNotes)
    [.scroll .SB_THUMBTRACK 871, .refresh twentyNotes]

/-! # Theorems -/

/-! ## The layout loop -/

theorem showStep_atIndex {s : Int} {k : Nat} {st : Cursor} (n : Note)
    (h : st.AtIndex s k) :
    (showStep st n).AtIndex s (k + 1) ∧
      (showStep st n).cards = st.cards ++ [gridCard s k n] := by
  obtain ⟨hc, hx, hy⟩ := h
  unfold showStep
  by_cases h2 : st.col + 1 = 2
  · simp only [h2, if_true, Cursor.AtIndex, gridCard, gridRect, margin, cardW, cardH]
    refine ⟨⟨?_, ?_, ?_⟩, ?_⟩
    · push_cast; omega
    · push_cast; omega
    · push_cast; omega
    · simp only [hx, hy]
  · simp only [h2, if_false, Cursor.AtIndex, gridCard, gridRect, margin, cardW, cardH]
    refine ⟨⟨?_, ?_, ?_⟩, ?_⟩
    · push_cast; omega
    · push_cast; omega
    · push_cast; omega
    · simp only [hx, hy]

theorem foldl_showStep_atIndex (s : Int) (notes : List Note) :
    ∀ (k : Nat) (st : Cursor), st.AtIndex s k →
      (notes.foldl showStep st).AtIndex s (k + notes.length) ∧
        (notes.foldl showStep st).cards = st.cards ++ gridFrom s k notes := by
  induction notes with
  | nil => intro k st h; simpa [gridFrom] using h
  | cons n ns ih =>
    intro k st h
    obtain ⟨h1, h2⟩ := showStep_atIndex n h
    obtain ⟨h3, h4⟩ := ih (k + 1) (showStep st n) h1
    refine ⟨?_, ?_⟩
    · have e : k + (n :: ns).length = k + 1 + ns.length := by
        simp only [List.length_cons]; omega
      rw [e]; exact h3
    · simp only [List.foldl_cons, h4, h2, gridFrom, List.append_assoc, List.singleton_append]

theorem startCursor_atIndex (s : Int) (cards : List CardInfo) (wins : List CardWin) :
    Cursor.AtIndex s 0 { x := margin, y := 50 - s, col := 0, cards := cards, wins := wins } := by
  simp [Cursor.AtIndex, margin]

theorem layout_eq_gridFrom (notes : List Note) (s : Int) :
    layout notes s = gridFrom s 0 notes := by
  unfold layout
  rw [(foldl_showStep_atIndex s notes 0 _ (startCursor_atIndex s [] [])).2]
  rfl

theorem renderNotes_cards (a : App) (notes : List Note) :
    (renderNotes (clearCards a) notes).g_cards = layout notes a.g_scrollY := by
  rfl

theorem getElem?_gridFrom (s : Int) (notes : List Note) :
    ∀ (k i : Nat), (gridFrom s k notes)[i]? = (notes[i]?).map (gridCard s (k + i)) := by
  induction notes with
  | nil => intro k i; simp [gridFrom]
  | cons n ns ih =>
    intro k i
    cases i with
    | zero => simp [gridFrom]
    | succ j =>
      simp only [gridFrom, List.getElem?_cons_succ, ih]
      have e : k + 1 + j = k + (j + 1) := by omega
      rw [e]

theorem length_gridFrom (s : Int) (notes : List Note) :
    ∀ k : Nat, (gridFrom s k notes).length = notes.length := by
  induction notes with
  | nil => intro k; rfl
  | cons n ns ih => intro k; simp [gridFrom, ih]

theorem getElem?_layout (notes : List Note) (s : Int) (i : Nat) :
    (layout notes s)[i]? = (notes[i]?).map (gridCard s i) := by
  rw [layout_eq_gridFrom, getElem?_gridFrom, Nat.zero_add]

theorem length_layout (notes : List Note) (s : Int) :
    (layout notes s).length = notes.length := by
  rw [layout_eq_gridFrom, length_gridFrom]

/-- C1: after `showNotes` the card list holds exactly one CardInfo per note of
the query result, in the same order, whatever `g_cards` held before: the render
is the layout loop run on the cleared list over the notes `fetchNotes` returned,
the list has as many entries as there are notes, and the entry at every index
carries the id of the note at that index. -/
theorem showNotes_cards_correspond (a : App) (eng : Engine) (search : Text) (notes : List Note) :
    showNotes a eng search
        = renderNotes (clearCards a) (fetchNotes a.db eng (queryText a search)) ∧
      (renderNotes (clearCards a) notes).g_cards.length = notes.length ∧
      ∀ i : Nat, ((renderNotes (clearCards a) notes).g_cards[i]?).map CardInfo.noteId
        = (notes[i]?).map Note.id := by
  refine ⟨rfl, ?_, ?_⟩
  · rw [renderNotes_cards, length_layout]
  · intro i
    rw [renderNotes_cards, getElem?_layout]
    cases notes[i]? <;> rfl

/-- C2: for every note list, scroll offset `g_scrollY = s` and index `i` into
the list, the rectangle `showNotes` records for the card of index `i` has
left = 10 + 190 * (i mod 2), top = 50 - s + 120 * (i div 2), right = left + 180
and bottom = top + 110, and the card carries the id of note `i`. -/
theorem showNotes_card_rect (a : App) (notes : List Note) (i : Nat) (h : i < notes.length) :
    (renderNotes (clearCards a) notes).g_cards[i]? =
      some { rc := { left := 10 + 190 * ((i : Int) % 2)
                     top := 50 - a.g_scrollY + 120 * ((i : Int) / 2)
                     right := 10 + 190 * ((i : Int) % 2) + 180
                     bottom := 50 - a.g_scrollY + 120 * ((i : Int) / 2) + 110 }
             noteId := (notes.get ⟨i, h⟩).id } := by
  rw [renderNotes_cards, getElem?_layout, List.getElem?_eq_getElem h]
  rfl

theorem showNotes_card_rect_witness :
    2 < threeNotes.length ∧
      (renderNotes (clearCards sampleApp) threeNotes).g_cards[2]? =
        some { rc := { left := 10 + 190 * (((2 : Nat) : Int) % 2)
                       top := 50 - sampleApp.g_scrollY + 120 * (((2 : Nat) : Int) / 2)
                       right := 10 + 190 * (((2 : Nat) : Int) % 2) + 180
                       bottom := 50 - sampleApp.g_scrollY + 120 * (((2 : Nat) : Int) / 2) + 110 }
               noteId := (threeNotes.get ⟨2, by decide⟩).id } :=
  ⟨by decide, showNotes_card_rect sampleApp threeNotes 2 (by decide)⟩

/-! ## The hit-test -/

theorem hitTest_eq_some_iff (x y : Int) (cards : List CardInfo) (n : Int) :
    hitTest x y cards = some n ↔
      ∃ (i : Nat) (ci : CardInfo), cards[i]? = some ci ∧ ptInRect x y ci.rc ∧ ci.noteId = n ∧
        ∀ (j : Nat) (cj : CardInfo), j < i → cards[j]? = some cj → ¬ ptInRect x y cj.rc := by
  induction cards with
  | nil => simp [hitTest]
  | cons c cs ih =>
    by_cases hc : ptInRect x y c.rc
    · have hc2 : x ≥ c.rc.left ∧ x ≤ c.rc.right ∧ y ≥ c.rc.top ∧ y ≤ c.rc.bottom := hc
      simp only [hitTest, hc2, and_self, if_true, Option.some.injEq]
      constructor
      · intro e
        exact ⟨0, c, List.getElem?_cons_zero, hc, e, fun j cj hj => absurd hj (Nat.not_lt_zero j)⟩
      · rintro ⟨i, ci, hi, _, hn, hfirst⟩
        cases i with
        | zero =>
          simp only [List.getElem?_cons_zero, Option.some.injEq] at hi
          rw [hi]; exact hn
        | succ k => exact absurd hc (hfirst 0 c (Nat.succ_pos k) List.getElem?_cons_zero)
    · have hc2 : ¬ (x ≥ c.rc.left ∧ x ≤ c.rc.right ∧ y ≥ c.rc.top ∧ y ≤ c.rc.bottom) := hc
      simp only [hitTest, hc2, if_false, ih]
      constructor
      · rintro ⟨i, ci, hi, hin, hn, hfirst⟩
        refine ⟨i + 1, ci, by simpa using hi, hin, hn, ?_⟩
        intro j cj hj hcj
        cases j with
        | zero =>
          simp only [List.getElem?_cons_zero, Option.some.injEq] at hcj
          rw [← hcj]; exact hc
        | succ k =>
          exact hfirst k cj (by omega) (by simpa using hcj)
      · rintro ⟨i, ci, hi, hin, hn, hfirst⟩
        cases i with
        | zero =>
          simp only [List.getElem?_cons_zero, Option.some.injEq] at hi
          rw [← hi] at hin; exact absurd hin hc
        | succ k =>
          refine ⟨k, ci, by simpa using hi, hin, hn, ?_⟩
          intro j cj hj hcj
          exact hfirst (j + 1) cj (by omega) (by simpa using hcj)

theorem hitTest_eq_none_iff (x y : Int) (cards : List CardInfo) :
    hitTest x y cards = none ↔ ∀ ci ∈ cards, ¬ ptInRect x y ci.rc := by
  induction cards with
  | nil => simp [hitTest]
  | cons c cs ih =>
    by_cases hc : ptInRect x y c.rc
    · have hc2 : x ≥ c.rc.left ∧ x ≤ c.rc.right ∧ y ≥ c.rc.top ∧ y ≤ c.rc.bottom := hc
      simp [hitTest, hc2, hc]
    · have hc2 : ¬ (x ≥ c.rc.left ∧ x ≤ c.rc.right ∧ y ≥ c.rc.top ∧ y ≤ c.rc.bottom) := hc
      simp [hitTest, hc2, hc, ih]

/-- C4: on every card list, overlapping or not, and every point, the hit-test
of `WM_LBUTTONDOWN` gives the note id of the first entry in list order whose
rectangle contains the point, the four edges included, and gives nothing
exactly when no entry contains the point. -/
theorem hitTest_first_match (a : App) (lParam : Int) (cards : List CardInfo) (x y : Int) :
    onLButtonDown a lParam = hitTest (LOWORD lParam) (HIWORD lParam) a.g_cards ∧
    (∀ n : Int, hitTest x y cards = some n ↔
      ∃ (i : Nat) (ci : CardInfo), cards[i]? = some ci ∧
        (ci.rc.left ≤ x ∧ x ≤ ci.rc.right ∧ ci.rc.top ≤ y ∧ y ≤ ci.rc.bottom) ∧
        ci.noteId = n ∧
        ∀ (j : Nat) (cj : CardInfo), j < i → cards[j]? = some cj →
          ¬ (cj.rc.left ≤ x ∧ x ≤ cj.rc.right ∧ cj.rc.top ≤ y ∧ y ≤ cj.rc.bottom)) ∧
    (hitTest x y cards = none ↔
      ∀ ci ∈ cards,
        ¬ (ci.rc.left ≤ x ∧ x ≤ ci.rc.right ∧ ci.rc.top ≤ y ∧ y ≤ ci.rc.bottom)) :=
  ⟨rfl, fun n => hitTest_eq_some_iff x y cards n, hitTest_eq_none_iff x y cards⟩

theorem layout_getElem?_some {notes : List Note} {s : Int} {i : Nat} {ci : CardInfo}
    (h : (layout notes s)[i]? = some ci) :
    ∃ note : Note, notes[i]? = some note ∧ ci = gridCard s i note := by
  rw [getElem?_layout] at h
  cases hn : notes[i]? with
  | none => rw [hn] at h; cases h
  | some note =>
    rw [hn] at h
    simp only [Option.map_some', Option.some.injEq] at h
    exact ⟨note, rfl, h.symm⟩

theorem gridRect_disjoint {s : Int} {i j : Nat} {x y : Int}
    (hi : ptInRect x y (gridRect s i)) (hj : ptInRect x y (gridRect s j)) : i = j := by
  simp only [ptInRect, gridRect] at hi hj
  omega

theorem layout_card_unique {notes : List Note} {s : Int} {i j : Nat} {ci cj : CardInfo}
    {x y : Int} (hi : (layout notes s)[i]? = some ci) (hj : (layout notes s)[j]? = some cj)
    (hpi : ptInRect x y ci.rc) (hpj : ptInRect x y cj.rc) : i = j := by
  obtain ⟨ni, _, rfl⟩ := layout_getElem?_some hi
  obtain ⟨nj, _, rfl⟩ := layout_getElem?_some hj
  exact gridRect_disjoint hpi hpj

/-- C3: over the cards the layout produces for any note list and scroll
offset, the hit-test selects note id `n` exactly when the point lies in the
rectangle of the card laid out for a note of id `n`; at most one card contains
the point; and it selects nothing exactly when the point lies in no card. -/
theorem hitTest_layout (notes : List Note) (s x y : Int) :
    (∀ n : Int, hitTest x y (layout notes s) = some n ↔
      ∃ (i : Nat) (ci : CardInfo), (layout notes s)[i]? = some ci ∧
        (notes[i]?).map Note.id = some n ∧ ptInRect x y ci.rc) ∧
    (∀ (i j : Nat) (ci cj : CardInfo), (layout notes s)[i]? = some ci →
      (layout notes s)[j]? = some cj → ptInRect x y ci.rc → ptInRect x y cj.rc → i = j) ∧
    (hitTest x y (layout notes s) = none ↔
      ∀ ci ∈ layout notes s, ¬ ptInRect x y ci.rc) := by
  refine ⟨?_, ?_, hitTest_eq_none_iff x y _⟩
  · intro n
    rw [hitTest_eq_some_iff]
    constructor
    · rintro ⟨i, ci, hi, hin, hn, _⟩
      obtain ⟨note, hnote, rfl⟩ := layout_getElem?_some hi
      exact ⟨i, _, hi, by rw [hnote]; exact congrArg some hn, hin⟩
    · rintro ⟨i, ci, hi, hn, hin⟩
      obtain ⟨note, hnote, rfl⟩ := layout_getElem?_some hi
      rw [hnote] at hn
      simp only [Option.map_some', Option.some.injEq] at hn
      refine ⟨i, _, hi, hin, hn, ?_⟩
      intro j cj hj hcj hpj
      have := layout_card_unique hcj hi hpj hin
      omega
  · intro i j ci cj hi hj hpi hpj
    exact layout_card_unique hi hj hpi hpj

theorem countP_top_gridFrom (s : Int) (r : Nat) (notes : List Note) :
    ∀ k : Nat,
      (gridFrom s k notes).countP (fun c => decide (c.rc.top = 50 - s + 120 * (r : Int)))
        = min (k + notes.length) (2 * r + 2) - max k (2 * r) := by
  induction notes with
  | nil => intro k; simp only [gridFrom, List.countP_nil, List.length_nil]; omega
  | cons n ns ih =>
    intro k
    rw [gridFrom, List.countP_cons, ih (k + 1)]
    simp only [gridCard, gridRect, List.length_cons]
    by_cases hk : (50 - s + 120 * ((k : Int) / 2) = 50 - s + 120 * (r : Int))
    · simp only [hk, decide_True, if_true]; omega
    · simp only [hk, decide_False]; simp only [Bool.false_eq_true, if_false]; omega

/-- C5: at scroll offset 0 the cards of the layout are pairwise disjoint, edges
included, and lie 2 per row: the number of cards sharing the top of a given
card is 2, except for the last card of a list of odd length, which is alone in
its row. -/
theorem layout_disjoint_two_per_row (notes : List Note) :
    (∀ (i j : Nat) (ci cj : CardInfo), (layout notes 0)[i]? = some ci →
      (layout notes 0)[j]? = some cj → i ≠ j →
      ∀ x y : Int, ¬ (ptInRect x y ci.rc ∧ ptInRect x y cj.rc)) ∧
    (∀ (i : Nat) (ci : CardInfo), (layout notes 0)[i]? = some ci →
      (layout notes 0).countP (fun c => decide (c.rc.top = ci.rc.top))
        = if notes.length % 2 = 1 ∧ i + 1 = notes.length then 1 else 2) := by
  constructor
  · intro i j ci cj hi hj hij x y hboth
    exact hij (layout_card_unique hi hj hboth.1 hboth.2)
  · intro i ci hi
    obtain ⟨note, hnote, rfl⟩ := layout_getElem?_some hi
    have hlt : i < notes.length := by
      rcases Nat.lt_or_ge i notes.length with h | h
      · exact h
      · rw [List.getElem?_eq_none h] at hnote; cases hnote
    have htop : (gridCard 0 i note).rc.top = 50 - 0 + 120 * (((i / 2 : Nat)) : Int) := by
      simp only [gridCard, gridRect]; push_cast; rfl
    rw [htop, layout_eq_gridFrom, countP_top_gridFrom]
    split_ifs with hc <;> omega

/-! ## The note store -/

theorem likeStar_isEmpty (s : List Nat) : likeStar (fun t => t.isEmpty) s = true := by
  induction s with
  | nil => rfl
  | cons c s ih => simp [likeStar, ih]

theorem likeCodes_percent (s : List Nat) : likeCodes [37] s = true := by
  have h : likeCodes [37] s = likeStar (likeCodes []) s := by simp [likeCodes]
  rw [h]
  have h2 : likeCodes [] = fun t => t.isEmpty := by funext t; simp [likeCodes]
  rw [h2]
  exact likeStar_isEmpty s

theorem likeCodes_literal_leading (w : List Nat) (hw : ∀ c ∈ w, c ≠ 37 ∧ c ≠ 95) :
    ∀ s : List Nat, likeCodes (w ++ [37]) s = true ↔ foldCodes w <+: foldCodes s := by
  induction w with
  | nil => intro s; simp [likeCodes_percent, foldCodes]
  | cons p ps ih =>
    intro s
    have hp := hw p (List.mem_cons_self p ps)
    have hps : ∀ c ∈ ps, c ≠ 37 ∧ c ≠ 95 := fun c hc => hw c (List.mem_cons_of_mem p hc)
    cases s with
    | nil => simp [likeCodes, hp.1, foldCodes]
    | cons d s' =>
      have e : likeCodes (p :: ps ++ [37]) (d :: s')
          = ((decide (p = 95) || decide (tolowerCode p = tolowerCode d))
              && likeCodes (ps ++ [37]) s') := by
        simp [likeCodes, hp.1]
      rw [e]
      have ih2 := ih hps s'
      simp only [foldCodes] at ih2 ⊢
      simp only [List.map_cons, List.cons_prefix_cons, Bool.and_eq_true, Bool.or_eq_true,
        decide_eq_true_eq, hp.2, false_or, ih2]

theorem likeStar_contains (k : List Nat → Bool) (fq : List Nat)
    (hk : ∀ s : List Nat, k s = true ↔ fq <+: foldCodes s) :
    ∀ s : List Nat, likeStar k s = true ↔ fq <:+: foldCodes s := by
  intro s
  induction s with
  | nil => simp [likeStar, hk, foldCodes]
  | cons c s ih =>
    have e : foldCodes (c :: s) = tolowerCode c :: foldCodes s := rfl
    rw [likeStar, Bool.or_eq_true, hk, ih, e, List.infix_cons_iff]

/-- On code points, LIKE with the pattern `%w%` for a `w` without wildcards is
containment of `w` up to ASCII case -/
theorem likeCodes_contains (w : List Nat) (hw : ∀ c ∈ w, c ≠ 37 ∧ c ≠ 95) (s : List Nat) :
    likeCodes (37 :: (w ++ [37])) s = true ↔ foldCodes w <:+: foldCodes s := by
  have h : likeCodes (37 :: (w ++ [37])) s = likeStar (likeCodes (w ++ [37])) s := by
    simp [likeCodes]
  rw [h]
  exact likeStar_contains _ _ (likeCodes_literal_leading w hw) s

theorem utf8DecodeFrom_ascii_append (q : Text) (hq : ∀ c ∈ q, c.toNat < 128) (r : Text) :
    utf8DecodeFrom none (q ++ r) = q.map Char.toNat ++ utf8DecodeFrom none r := by
  induction q with
  | nil => rfl
  | cons c cs ih =>
    have hc : c.toNat < 128 := hq c (List.mem_cons_self c cs)
    have hcs : ∀ x ∈ cs, x.toNat < 128 := fun x hx => hq x (List.mem_cons_of_mem c hx)
    have hlt : ¬ (0xC0 ≤ c.toNat) := by omega
    have e : utf8DecodeFrom none (c :: (cs ++ r))
        = c.toNat :: utf8DecodeFrom none (cs ++ r) := by
      simp only [utf8DecodeFrom, hlt, if_false]
    rw [List.cons_append, e, ih hcs, List.map_cons, List.cons_append]

theorem utf8Decode_pattern (q : Text) (hq : ∀ c ∈ q, c.toNat < 128) :
    utf8Decode ('%' :: (q ++ ['%'])) = 37 :: (q.map Char.toNat ++ [37]) := by
  have h : ∀ c ∈ '%' :: q, c.toNat < 128 := by
    intro c hc
    rcases List.mem_cons.mp hc with rfl | h
    · decide
    · exact hq c h
  have e := utf8DecodeFrom_ascii_append ('%' :: q) h ['%']
  rw [List.cons_append] at e
  unfold utf8Decode
  rw [e]
  rfl

theorem utf8Fix_ge (c : Nat) : 128 ≤ utf8Fix c := by
  unfold utf8Fix
  split <;> omega

theorem utf8DecodeFrom_pending_head (s : Text) :
    ∀ c : Nat, ∃ h tl, utf8DecodeFrom (some c) s = h :: tl ∧ 128 ≤ h := by
  induction s with
  | nil => intro c; exact ⟨utf8Fix c, [], rfl, utf8Fix_ge c⟩
  | cons b rest ih =>
    intro c
    by_cases h1 : 0x80 ≤ b.toNat ∧ b.toNat < 0xC0
    · obtain ⟨h, tl, e, hh⟩ := ih ((c * 64 + b.toNat % 64) % 4294967296)
      exact ⟨h, tl, by simp only [utf8DecodeFrom, h1, and_self, if_true, e], hh⟩
    · by_cases h2 : 0xC0 ≤ b.toNat
      · exact ⟨utf8Fix c, utf8DecodeFrom (some (utf8Trans1 b.toNat)) rest,
          by simp only [utf8DecodeFrom, h1, if_false, h2, if_true], utf8Fix_ge c⟩
      · exact ⟨utf8Fix c, b.toNat :: utf8DecodeFrom none rest,
          by simp only [utf8DecodeFrom, h1, if_false, h2], utf8Fix_ge c⟩

theorem tolowerCode_of_ge {h : Nat} (hh : 128 ≤ h) : tolowerCode h = h := by
  unfold tolowerCode
  rw [if_neg (by omega)]

theorem tolowerCode_lt {x : Nat} (hx : x < 128) : tolowerCode x < 128 := by
  unfold tolowerCode
  split <;> omega

theorem not_isPrefix_cons_high {w : List Nat} (hw : ∀ x ∈ w, x < 128) (hne : w ≠ [])
    {h : Nat} (hh : 128 ≤ h) (l : List Nat) : ¬ w <+: foldCodes (h :: l) := by
  cases w with
  | nil => exact absurd rfl hne
  | cons x w' =>
    have hx : x < 128 := hw x (List.mem_cons_self x w')
    simp only [foldCodes, List.map_cons, List.cons_prefix_cons, tolowerCode_of_ge hh]
    intro hc
    omega

theorem isInfix_cons_high {w : List Nat} (hw : ∀ x ∈ w, x < 128) (hne : w ≠ [])
    {h : Nat} (hh : 128 ≤ h) (l : List Nat) :
    w <:+: foldCodes (h :: l) ↔ w <:+: foldCodes l := by
  have e : foldCodes (h :: l) = tolowerCode h :: foldCodes l := rfl
  have hp := not_isPrefix_cons_high hw hne hh l
  rw [e] at hp ⊢
  rw [List.infix_cons_iff]
  exact ⟨fun hx => hx.resolve_left hp, Or.inr⟩

theorem isPrefix_decode {w : List Nat} (hw : ∀ x ∈ w, x < 128) :
    ∀ s : Text, w <+: foldCodes (utf8DecodeFrom none s)
      ↔ w <+: foldCodes (s.map Char.toNat) := by
  induction w with
  | nil => intro s; simp
  | cons x w' ih =>
    intro s
    have hw' : ∀ y ∈ w', y < 128 := fun y hy => hw y (List.mem_cons_of_mem x hy)
    cases s with
    | nil => rfl
    | cons b rest =>
      by_cases hb : 0xC0 ≤ b.toNat
      · obtain ⟨h, tl, e, hh⟩ := utf8DecodeFrom_pending_head rest (utf8Trans1 b.toNat)
        have e1 : utf8DecodeFrom none (b :: rest) = h :: tl := by
          simp only [utf8DecodeFrom, hb, if_true, e]
        rw [e1, List.map_cons]
        have n1 := not_isPrefix_cons_high hw (List.cons_ne_nil x w') hh tl
        have n2 := not_isPrefix_cons_high hw (List.cons_ne_nil x w')
          (show 128 ≤ b.toNat by omega) (rest.map Char.toNat)
        exact ⟨fun h1 => absurd h1 n1, fun h2 => absurd h2 n2⟩
      · have e1 : utf8DecodeFrom none (b :: rest)
            = b.toNat :: utf8DecodeFrom none rest := by
          simp only [utf8DecodeFrom, hb, if_false]
        rw [e1, List.map_cons]
        simp only [foldCodes, List.map_cons, List.cons_prefix_cons]
        have := ih hw' rest
        simp only [foldCodes] at this
        rw [this]

theorem isInfix_decode {w : List Nat} (hw : ∀ x ∈ w, x < 128) (hne : w ≠ []) :
    ∀ (s : Text) (st : Option Nat), w <:+: foldCodes (utf8DecodeFrom st s)
      ↔ w <:+: foldCodes (s.map Char.toNat) := by
  intro s
  induction s with
  | nil =>
    intro st
    cases st with
    | none => rfl
    | some c =>
      have e : utf8DecodeFrom (some c) [] = [utf8Fix c] := rfl
      rw [e, isInfix_cons_high hw hne (utf8Fix_ge c)]
      rfl
  | cons b rest ih =>
    have hbytes : 128 ≤ b.toNat →
        (w <:+: foldCodes ((b :: rest).map Char.toNat)
          ↔ w <:+: foldCodes (rest.map Char.toNat)) := by
      intro hb
      rw [List.map_cons]
      exact isInfix_cons_high hw hne hb _
    have hlow : ¬ (0xC0 ≤ b.toNat) →
        (w <:+: foldCodes (b.toNat :: utf8DecodeFrom none rest)
          ↔ w <:+: foldCodes ((b :: rest).map Char.toNat)) := by
      intro hb
      have e1 : utf8DecodeFrom none (b :: rest)
          = b.toNat :: utf8DecodeFrom none rest := by
        simp only [utf8DecodeFrom, hb, if_false]
      have hp := isPrefix_decode hw (b :: rest)
      rw [e1] at hp
      have hi := ih none
      have f1 : foldCodes (b.toNat :: utf8DecodeFrom none rest)
          = tolowerCode b.toNat :: foldCodes (utf8DecodeFrom none rest) := rfl
      have f2 : foldCodes ((b :: rest).map Char.toNat)
          = tolowerCode b.toNat :: foldCodes (rest.map Char.toNat) := rfl
      rw [f1] at hp ⊢
      rw [f2] at hp ⊢
      rw [List.infix_cons_iff, List.infix_cons_iff, hp, hi]
    intro st
    cases st with
    | none =>
      by_cases hb : 0xC0 ≤ b.toNat
      · have e1 : utf8DecodeFrom none (b :: rest)
            = utf8DecodeFrom (some (utf8Trans1 b.toNat)) rest := by
          simp only [utf8DecodeFrom, hb, if_true]
        rw [e1, ih, hbytes (by omega)]
      · have e1 : utf8DecodeFrom none (b :: rest)
            = b.toNat :: utf8DecodeFrom none rest := by
          simp only [utf8DecodeFrom, hb, if_false]
        rw [e1]
        exact hlow hb
    | some c =>
      by_cases h1 : 0x80 ≤ b.toNat ∧ b.toNat < 0xC0
      · have e1 : utf8DecodeFrom (some c) (b :: rest)
            = utf8DecodeFrom (some ((c * 64 + b.toNat % 64) % 4294967296)) rest := by
          simp only [utf8DecodeFrom, h1, and_self, if_true]
        rw [e1, ih, hbytes h1.1]
      · by_cases h2 : 0xC0 ≤ b.toNat
        · have e1 : utf8DecodeFrom (some c) (b :: rest)
              = utf8Fix c :: utf8DecodeFrom (some (utf8Trans1 b.toNat)) rest := by
            simp only [utf8DecodeFrom, h1, if_false, h2, if_true]
          rw [e1, isInfix_cons_high hw hne (utf8Fix_ge c), ih, hbytes (by omega)]
        · have e1 : utf8DecodeFrom (some c) (b :: rest)
              = utf8Fix c :: b.toNat :: utf8DecodeFrom none rest := by
            simp only [utf8DecodeFrom, h1, if_false, h2]
          rw [e1, isInfix_cons_high hw hne (utf8Fix_ge c)]
          exact hlow h2

theorem toNat_toLowerAscii (c : Char) : (toLowerAscii c).toNat = tolowerCode c.toNat := by
  unfold toLowerAscii tolowerCode
  by_cases h : 65 ≤ c.toNat ∧ c.toNat ≤ 90
  · rw [if_pos h, if_pos h]
    obtain ⟨h1, h2⟩ := h
    generalize c.toNat = n at h1 h2
    interval_cases n <;> rfl
  · rw [if_neg h, if_neg h]

theorem foldCodes_map_toNat (s : Text) :
    foldCodes (s.map Char.toNat) = (foldText s).map Char.toNat := by
  simp only [foldCodes, foldText, List.map_map]
  apply List.map_congr_left
  intro c _
  exact (toNat_toLowerAscii c).symm

theorem toNat_injective : Function.Injective Char.toNat := by
  intro a b h
  rw [← Char.ofNat_toNat a, ← Char.ofNat_toNat b, h]

theorem isInfix_map_toNat (a b : Text) :
    a.map Char.toNat <:+: b.map Char.toNat ↔ a <:+: b := by
  constructor
  · intro h
    obtain ⟨l, hl, e⟩ := List.isInfix_map_iff.mp h
    have : a = l := (List.map_injective_iff.mpr toNat_injective) e
    rw [this]; exact hl
  · intro h
    exact List.IsInfix.map Char.toNat h

/-- LIKE with the pattern `%q%`, for a `q` of ASCII characters other than `%`
and `_`, is containment of `q` up to ASCII case, whatever bytes the text holds -/
theorem likeMatch_contains (q : Text) (hq : ∀ c ∈ q, c ≠ '%' ∧ c ≠ '_')
    (ha : ∀ c ∈ q, c.toNat < 128) (s : Text) :
    likeMatch ('%' :: (q ++ ['%'])) s = true ↔ foldText q <:+: foldText s := by
  have hw : ∀ n ∈ q.map Char.toNat, n ≠ 37 ∧ n ≠ 95 := by
    intro n hn
    obtain ⟨c, hc, rfl⟩ := List.mem_map.mp hn
    obtain ⟨h1, h2⟩ := hq c hc
    constructor
    · intro e; exact h1 (toNat_injective (e.trans (by decide : (37 : Nat) = '%'.toNat)))
    · intro e; exact h2 (toNat_injective (e.trans (by decide : (95 : Nat) = '_'.toNat)))
  unfold likeMatch
  rw [utf8Decode_pattern q ha, likeCodes_contains (q.map Char.toNat) hw (utf8Decode s)]
  by_cases hne : q = []
  · subst hne
    simp [foldCodes, foldText]
  · have hw128 : ∀ x ∈ foldCodes (q.map Char.toNat), x < 128 := by
      intro x hx
      obtain ⟨n, hn, rfl⟩ := List.mem_map.mp hx
      obtain ⟨c, hc, rfl⟩ := List.mem_map.mp hn
      exact tolowerCode_lt (ha c hc)
    have hne2 : foldCodes (q.map Char.toNat) ≠ [] := by
      cases q with
      | nil => exact absurd rfl hne
      | cons c cs => simp [foldCodes]
    unfold utf8Decode
    rw [isInfix_decode hw128 hne2 s none, foldCodes_map_toNat, foldCodes_map_toNat,
      isInfix_map_toNat]

theorem fetchNotes_healthy (d : Db) (q : Text) :
    fetchNotes (some d) Engine.healthy q
      = ((selectRows d q).insertionSort idDesc).map rowToNote := by
  simp [fetchNotes, Engine.healthy]

theorem likeCol_contains (q : Text) (hq : ∀ c ∈ q, c ≠ '%' ∧ c ≠ '_')
    (ha : ∀ c ∈ q, c.toNat < 128) (hne : q ≠ []) (col : Option Text) :
    likeCol ('%' :: (q ++ ['%'])) col = true ↔ foldText q <:+: foldText (col.getD []) := by
  cases col with
  | none =>
    simp only [likeCol, Option.getD_none, foldText, List.map_nil, List.infix_nil,
      List.map_eq_nil_iff]
    simp [hne]
  | some s => exact likeMatch_contains q hq ha s

theorem selectRows_map (d : Db) (q : Text) (hq : ∀ c ∈ q, c ≠ '%' ∧ c ≠ '_')
    (ha : ∀ c ∈ q, c.toNat < 128) :
    (selectRows d q).map rowToNote = (d.rows.map rowToNote).filter (containsFolded q) := by
  rw [List.filter_map]
  congr 1
  unfold selectRows
  by_cases hne : q = []
  · subst hne
    simp only [List.isEmpty_nil, if_true]
    refine (List.filter_eq_self.mpr ?_).symm
    intro r _
    simp [containsFolded, foldText]
  · have h1 : q.isEmpty = false := by cases q <;> simp_all
    simp only [h1, Bool.false_eq_true, if_false]
    apply List.filter_congr
    intro r _
    have ht := likeCol_contains q hq ha hne r.title
    have hc := likeCol_contains q hq ha hne r.content
    simp only [Function.comp, containsFolded, rowToNote]
    rw [Bool.eq_iff_iff]
    simp only [Bool.or_eq_true, decide_eq_true_eq, ht, hc]

theorem sorted_ids_of_sorted_rows (l : List Row) (h : l.Sorted idDesc) :
    ((l.map rowToNote).map Note.id).Sorted (fun a b => a ≥ b) := by
  rw [List.map_map]
  exact List.pairwise_map.mpr h

/-- C6, as amended: with the database open and the engine answering without
error, for every query `q` of ASCII characters (values below 128) other than
`%` and `_`, `fetchNotes(q)` returns exactly the notes whose title or content
contains `q` up to ASCII letter case, whatever bytes the stored texts hold,
ordered by id descending; for the empty `q` these are all notes. -/
theorem fetchNotes_literal_query (d : Db) (q : Text) (hq : ∀ c ∈ q, c ≠ '%' ∧ c ≠ '_')
    (ha : ∀ c ∈ q, c.toNat < 128) :
    (fetchNotes (some d) Engine.healthy q).Perm
        ((d.rows.map rowToNote).filter (containsFolded q)) ∧
      ((fetchNotes (some d) Engine.healthy q).map Note.id).Sorted (fun a b => a ≥ b) ∧
      (fetchNotes (some d) Engine.healthy []).Perm (d.rows.map rowToNote) := by
  refine ⟨?_, ?_, ?_⟩
  · rw [fetchNotes_healthy, ← selectRows_map d q hq ha]
    exact (List.perm_insertionSort idDesc _).map rowToNote
  · rw [fetchNotes_healthy]
    exact sorted_ids_of_sorted_rows _ (List.sorted_insertionSort idDesc _)
  · rw [fetchNotes_healthy]
    exact (List.perm_insertionSort idDesc _).map rowToNote

theorem fetchNotes_literal_query_witness :
    ((∀ c ∈ "milk".toList, c ≠ '%' ∧ c ≠ '_') ∧ (∀ c ∈ "milk".toList, c.toNat < 128)) ∧
      ((fetchNotes (some accentDb) Engine.healthy "milk".toList).Perm
          ((accentDb.rows.map rowToNote).filter (containsFolded "milk".toList)) ∧
        ((fetchNotes (some accentDb) Engine.healthy "milk".toList).map Note.id).Sorted
          (fun a b => a ≥ b) ∧
        (fetchNotes (some accentDb) Engine.healthy []).Perm (accentDb.rows.map rowToNote)) :=
  ⟨by decide,
   fetchNotes_literal_query accentDb "milk".toList (by decide) (by decide)⟩

/-- C6, counterexample. On the three sample notes the query "%" returns the
note "Shopping", and so does the query "MILK", although neither its title
"Shopping" nor its content "milk eggs" contains "%" or "MILK". On the notes
with accents the query of the one byte 0xE9 returns the note whose content is
the byte 0xE0 followed by " la carte milk", which holds no byte 0xE9; and the query
of the one byte 0xA9 does not return the note whose content is 0xC3 0xA9. -/
theorem fetchNotes_wildcard_counterexample :
    (noteShopping ∈ fetchNotes (some sampleDb) Engine.healthy ['%'] ∧
      ¬ (['%'] <:+: noteShopping.title ∨ ['%'] <:+: noteShopping.content)) ∧
    (noteShopping ∈ fetchNotes (some sampleDb) Engine.healthy "MILK".toList ∧
      ¬ ("MILK".toList <:+: noteShopping.title ∨ "MILK".toList <:+: noteShopping.content)) ∧
    (noteMenu ∈ fetchNotes (some accentDb) Engine.healthy [Char.ofNat 0xE9] ∧
      ¬ ([Char.ofNat 0xE9] <:+: noteMenu.title ∨ [Char.ofNat 0xE9] <:+: noteMenu.content)) ∧
    ([Char.ofNat 0xA9] <:+: noteCafe.content ∧
      noteCafe ∉ fetchNotes (some accentDb) Engine.healthy [Char.ofNat 0xA9]) := by
  decide

theorem le_foldr_max (seq : Int) (ids : List Int) :
    seq ≤ ids.foldr max seq ∧ ∀ i ∈ ids, i ≤ ids.foldr max seq := by
  induction ids with
  | nil => simp
  | cons a l ih =>
    simp only [List.foldr_cons, List.mem_cons, forall_eq_or_imp]
    refine ⟨le_trans ih.1 (le_max_right _ _), le_max_left _ _, ?_⟩
    intro i hi
    exact le_trans (ih.2 i hi) (le_max_right _ _)

theorem id_lt_nextRowid (d : Db) (r : Row) (h : r ∈ d.rows) : r.id < nextRowid d := by
  have := (le_foldr_max d.seq (d.rows.map Row.id)).2 r.id (List.mem_map_of_mem Row.id h)
  unfold nextRowid
  omega

theorem insertionSort_append_newest (new : Row) (rows : List Row)
    (h : ∀ r ∈ rows, r.id < new.id) :
    (rows ++ [new]).insertionSort idDesc = new :: rows.insertionSort idDesc := by
  induction rows with
  | nil => rfl
  | cons a l ih =>
    have hl : ∀ r ∈ l, r.id < new.id := fun r hr => h r (List.mem_cons_of_mem a hr)
    have ha : ¬ idDesc a new := by
      have := h a (List.mem_cons_self a l)
      unfold idDesc
      omega
    rw [List.cons_append, List.insertionSort, ih hl, List.insertionSort, List.orderedInsert,
      if_neg ha]

theorem insertNotePrepared_true {d : Db} {eng : Engine} {title content : Text}
    (h : (insertNotePrepared (some d) eng title content).1 = true) :
    (insertNotePrepared (some d) eng title content).2 =
      some { rows := d.rows ++ [⟨nextRowid d, some title, some content⟩],
             seq := nextRowid d } := by
  unfold insertNotePrepared at h ⊢
  by_cases h1 : eng.prepareOk = true
  · by_cases h2 : eng.failAt = some 0
    · simp [h1, h2] at h
    · simp [h1, h2]
  · simp [h1] at h

/-- C7: for every open database and every title `T` and content `C`, if
`insertNotePrepared(T, C)` returns true then `fetchNotes("")` afterwards is the
new note, with title `T`, content `C` and an id greater than every other id,
followed by exactly what `fetchNotes("")` returned before the insert. -/
theorem insert_then_fetch_all (d : Db) (eng : Engine) (T C : Text)
    (h : (insertNotePrepared (some d) eng T C).1 = true) :
    fetchNotes (insertNotePrepared (some d) eng T C).2 Engine.healthy []
        = ⟨nextRowid d, T, C⟩ :: fetchNotes (some d) Engine.healthy [] ∧
      ∀ n ∈ fetchNotes (some d) Engine.healthy [], n.id < nextRowid d := by
  rw [insertNotePrepared_true h, fetchNotes_healthy, fetchNotes_healthy]
  have hs : ∀ e : Db, selectRows e [] = e.rows := fun e => rfl
  rw [hs, hs]
  constructor
  · show ((d.rows ++ [(⟨nextRowid d, some T, some C⟩ : Row)]).insertionSort idDesc).map
      rowToNote = _
    rw [insertionSort_append_newest _ _ (fun r hr => id_lt_nextRowid d r hr)]
    rfl
  · intro n hn
    obtain ⟨r, hr, rfl⟩ := List.mem_map.mp hn
    exact id_lt_nextRowid d r ((List.perm_insertionSort idDesc d.rows).mem_iff.mp hr)

theorem insert_then_fetch_all_witness :
    (insertNotePrepared (some sampleDb) Engine.healthy "Idea".toList "buy tea".toList).1 = true ∧
      (fetchNotes
          (insertNotePrepared (some sampleDb) Engine.healthy "Idea".toList "buy tea".toList).2
          Engine.healthy []
        = ⟨nextRowid sampleDb, "Idea".toList, "buy tea".toList⟩
            :: fetchNotes (some sampleDb) Engine.healthy [] ∧
      ∀ n ∈ fetchNotes (some sampleDb) Engine.healthy [], n.id < nextRowid sampleDb) :=
  ⟨by decide,
   insert_then_fetch_all sampleDb Engine.healthy "Idea".toList "buy tea".toList (by decide)⟩

/-! ## The editor -/

/-- C8: closing the editor while the content field is empty performs no insert
and no update, whatever the note id and the title text: the store after
`WM_CLOSE` is the store before it, and `MSG_REFRESH` is still posted to the
main window. -/
theorem close_with_empty_content (k : Desk) (eng : Engine) (hwnd w : HWND)
    (hc : windowText k k.hContentEdit = []) (hm : k.hMainWnd = some w) :
    (NoteWndProc k eng hwnd .WM_CLOSE).db = k.db ∧
      (NoteWndProc k eng hwnd .WM_CLOSE).posted = k.posted ++ [(w, MSG_REFRESH)] := by
  simp [NoteWndProc, noteClose, hc, hm]

theorem close_with_empty_content_witness :
    (windowText clearedEditor clearedEditor.hContentEdit = [] ∧
      clearedEditor.hMainWnd = some 1 ∧ clearedEditor.noteId = 2 ∧
      windowText clearedEditor clearedEditor.hTitleEdit = "Work".toList) ∧
    ((NoteWndProc clearedEditor Engine.healthy 5 .WM_CLOSE).db = clearedEditor.db ∧
      (NoteWndProc clearedEditor Engine.healthy 5 .WM_CLOSE).posted
        = clearedEditor.posted ++ [(1, MSG_REFRESH)]) :=
  ⟨by decide, close_with_empty_content clearedEditor Engine.healthy 5 1 (by decide) (by decide)⟩

theorem find?_setText (l : List Control) (h h' : Option HWND) (t : Text) :
    (l.map (fun c => if some c.hwnd = h' then { c with text := t } else c)).find?
        (fun c => decide (some c.hwnd = h))
      = (l.find? (fun c => decide (some c.hwnd = h))).map
          (fun c => if some c.hwnd = h' then { c with text := t } else c) := by
  induction l with
  | nil => rfl
  | cons c l ih =>
    have e : (if some c.hwnd = h' then ({ c with text := t } : Control) else c).hwnd
        = c.hwnd := by
      split <;> rfl
    simp only [List.map_cons, List.find?_cons, e]
    cases decide (some c.hwnd = h) with
    | true => rfl
    | false => exact ih

theorem find?_of_hasControl {k : Desk} {h : HWND} (hh : hasControl k h) :
    ∃ c, k.controls.find? (fun c => decide (some c.hwnd = some h)) = some c ∧ c.hwnd = h := by
  obtain ⟨c0, hc0, e0⟩ := hh
  cases hf : k.controls.find? (fun c => decide (some c.hwnd = some h)) with
  | none =>
    have := List.find?_eq_none.mp hf c0 hc0
    simp [e0] at this
  | some c =>
    have := List.find?_some hf
    exact ⟨c, rfl, by simpa using this⟩

theorem windowText_setWindowText_same {k : Desk} {h : HWND} (hh : hasControl k h) (t : Text) :
    windowText (setWindowText k (some h) t) (some h) = t := by
  obtain ⟨c, hc, e⟩ := find?_of_hasControl hh
  simp only [windowText, setWindowText, find?_setText, hc, Option.map_some', e, if_true]

theorem windowText_setWindowText_other (k : Desk) {h h' : HWND} (hne : h ≠ h') (t : Text) :
    windowText (setWindowText k (some h') t) (some h) = windowText k (some h) := by
  simp only [windowText, setWindowText, find?_setText]
  cases hf : k.controls.find? (fun c => decide (some c.hwnd = some h)) with
  | none => rfl
  | some c =>
    have hch : c.hwnd = h := by simpa using List.find?_some hf
    have : ¬ (some c.hwnd = some h') := by
      rw [hch]; intro e; exact hne (Option.some.inj e)
    simp only [Option.map_some', this, if_false]

theorem hasControl_setWindowText {k : Desk} {h : HWND} (hh : hasControl k h)
    (h' : Option HWND) (t : Text) : hasControl (setWindowText k h' t) h := by
  obtain ⟨c, hc, e⟩ := hh
  refine ⟨if some c.hwnd = h' then { c with text := t } else c, ?_, ?_⟩
  · exact List.mem_map_of_mem _ hc
  · split <;> exact e

theorem sameButTexts_refl (k : Desk) : sameButTexts k k :=
  ⟨rfl, rfl, rfl, rfl, rfl, rfl, fun _ hh => hh⟩

theorem sameButTexts_trans {a b c : Desk} (h1 : sameButTexts a b) (h2 : sameButTexts b c) :
    sameButTexts a c := by
  obtain ⟨a1, a2, a3, a4, a5, a6, a7⟩ := h1
  obtain ⟨b1, b2, b3, b4, b5, b6, b7⟩ := h2
  exact ⟨b1.trans a1, b2.trans a2, b3.trans a3, b4.trans a4, b5.trans a5, b6.trans a6,
    fun h hh => b7 h (a7 h hh)⟩

theorem sameButTexts_setWindowText (k : Desk) (h : Option HWND) (t : Text) :
    sameButTexts k (setWindowText k h t) :=
  ⟨rfl, rfl, rfl, rfl, rfl, rfl, fun _ hh => hasControl_setWindowText hh h t⟩

theorem sameButTexts_setTextIfText (k : Desk) (h : Option HWND) (t : Option Text) :
    sameButTexts k (setTextIfText k h t) := by
  cases t with
  | none => exact sameButTexts_refl k
  | some t => exact sameButTexts_setWindowText k h t

theorem sameButTexts_preloadNote (k : Desk) (eng : Engine) :
    sameButTexts k (preloadNote k eng) := by
  unfold preloadNote
  split
  · exact sameButTexts_refl k
  · split
    · split
      · exact sameButTexts_refl k
      · exact sameButTexts_trans (sameButTexts_setTextIfText _ _ _)
          (sameButTexts_setTextIfText _ _ _)
    · exact sameButTexts_refl k

/-- What `WM_CREATE` leaves behind: the database untouched, the static
`noteId` set to the creation parameter, the two static handles set to the two
fresh edit fields -/
theorem noteCreate_spec (k : Desk) (eng : Engine) (hwnd : HWND) (nid : Int) :
    (noteCreate k eng hwnd nid).db = k.db ∧
      (noteCreate k eng hwnd nid).noteId = nid ∧
      (noteCreate k eng hwnd nid).hMainWnd = k.hMainWnd ∧
      (noteCreate k eng hwnd nid).posted = k.posted ∧
      (noteCreate k eng hwnd nid).hTitleEdit = some (k.nextHwnd + 1) ∧
      (noteCreate k eng hwnd nid).hContentEdit = some (k.nextHwnd + 3) ∧
      hasControl (noteCreate k eng hwnd nid) (k.nextHwnd + 1) ∧
      hasControl (noteCreate k eng hwnd nid) (k.nextHwnd + 3) := by
  obtain ⟨h1, h2, h3, h4, h5, h6, h7⟩ :=
    sameButTexts_preloadNote (noteCreateFields k hwnd nid) eng
  have c1 : hasControl (noteCreateFields k hwnd nid) (k.nextHwnd + 1) :=
    ⟨⟨k.nextHwnd + 1, hwnd, []⟩, by simp [noteCreateFields, createControl], rfl⟩
  have c3 : hasControl (noteCreateFields k hwnd nid) (k.nextHwnd + 3) :=
    ⟨⟨k.nextHwnd + 3, hwnd, []⟩, by simp [noteCreateFields, createControl], rfl⟩
  exact ⟨h1, h2, h3, h4, h5, h6, h7 _ c1, h7 _ c3⟩

theorem editorFilled_spec (k : Desk) (eng : Engine) (hwnd : HWND) (nid : Int)
    (title content : Text) :
    (editorFilled k eng hwnd nid title content).db = k.db ∧
      (editorFilled k eng hwnd nid title content).noteId = nid ∧
      windowText (editorFilled k eng hwnd nid title content)
        (editorFilled k eng hwnd nid title content).hTitleEdit = title ∧
      windowText (editorFilled k eng hwnd nid title content)
        (editorFilled k eng hwnd nid title content).hContentEdit = content := by
  obtain ⟨h1, h2, _, _, h5, h6, h7, h8⟩ := noteCreate_spec k eng hwnd nid
  have e : editorFilled k eng hwnd nid title content
      = setWindowText (setWindowText (noteCreate k eng hwnd nid) (some (k.nextHwnd + 1)) title)
          (some (k.nextHwnd + 3)) content := by
    unfold editorFilled
    simp only [NoteWndProc, h5]
    show setWindowText _ (noteCreate k eng hwnd nid).hContentEdit content = _
    rw [h6]
  have ht : (editorFilled k eng hwnd nid title content).hTitleEdit = some (k.nextHwnd + 1) := by
    rw [e]; exact h5
  have hc : (editorFilled k eng hwnd nid title content).hContentEdit
      = some (k.nextHwnd + 3) := by
    rw [e]; exact h6
  refine ⟨by rw [e]; exact h1, by rw [e]; exact h2, ?_, ?_⟩
  · have hne : k.nextHwnd + 1 ≠ k.nextHwnd + 3 := fun h =>
      absurd (Nat.add_left_cancel h) (by decide)
    rw [ht, e, windowText_setWindowText_other _ hne, windowText_setWindowText_same h7]
  · rw [hc, e, windowText_setWindowText_same (hasControl_setWindowText h8 _ _)]

theorem noteClose_db_of_content (k : Desk) (eng : Engine) (hwnd : HWND)
    (hc : windowText k k.hContentEdit ≠ []) :
    (noteClose k eng hwnd).db =
      if k.noteId > 0 then
        (updateNotePrepared k.db eng k.noteId (windowText k k.hTitleEdit)
          (windowText k k.hContentEdit)).2
      else (insertNotePrepared k.db eng (windowText k k.hTitleEdit)
        (windowText k k.hContentEdit)).2 := by
  have h : (windowText k k.hContentEdit).isEmpty = false := by
    cases hw : windowText k k.hContentEdit with
    | nil => exact absurd hw hc
    | cons a l => rfl
  simp [noteClose, h]

/-- C9: one editor, closed with any title and a non-empty content in its
fields. Created with note id 0, the close performs the one call
`insertNotePrepared(title, content)`, which appends one row and leaves the
existing rows as they were. Created with an id > 0, it performs the one call
`updateNotePrepared(id, title, content)`, which sets the title and content of
the row of that id, leaves every other row as it was and adds none. -/
theorem editSession_persists (k : Desk) (engCreate engClose : Engine) (hwnd : HWND)
    (nid : Int) (title content : Text) (hc : content ≠ []) :
    (nid = 0 → (editSession k engCreate engClose hwnd nid title content).db
        = (insertNotePrepared k.db engClose title content).2) ∧
    (nid > 0 → (editSession k engCreate engClose hwnd nid title content).db
        = (updateNotePrepared k.db engClose nid title content).2) ∧
    ∀ d : Db, k.db = some d → engClose.prepareOk = true → engClose.failAt ≠ some 0 →
      (nid = 0 → (editSession k engCreate engClose hwnd nid title content).db
          = some { rows := d.rows ++ [⟨nextRowid d, some title, some content⟩],
                   seq := nextRowid d }) ∧
      (nid > 0 → ∃ d1 : Db,
          (editSession k engCreate engClose hwnd nid title content).db = some d1 ∧
          d1.seq = d.seq ∧ d1.rows.length = d.rows.length ∧
          ∀ (i : Nat) (r : Row), d.rows[i]? = some r →
            d1.rows[i]? = some (if r.id = nid then ⟨nid, some title, some content⟩ else r)) := by
  obtain ⟨h1, h2, h3, h4⟩ := editorFilled_spec k engCreate hwnd nid title content
  have hdb : (editSession k engCreate engClose hwnd nid title content).db =
      if nid > 0 then (updateNotePrepared k.db engClose nid title content).2
      else (insertNotePrepared k.db engClose title content).2 := by
    unfold editSession
    simp only [NoteWndProc]
    rw [noteClose_db_of_content _ _ _ (by rw [h4]; exact hc), h1, h2, h3, h4]
  have hins : nid = 0 → (editSession k engCreate engClose hwnd nid title content).db
      = (insertNotePrepared k.db engClose title content).2 := by
    intro h0; rw [hdb, if_neg (by omega)]
  have hupd : nid > 0 → (editSession k engCreate engClose hwnd nid title content).db
      = (updateNotePrepared k.db engClose nid title content).2 := by
    intro h0; rw [hdb, if_pos h0]
  refine ⟨hins, hupd, ?_⟩
  intro d hd hp hf
  constructor
  · intro h0
    rw [hins h0, hd]
    simp [insertNotePrepared, hp, hf]
  · intro h0
    refine ⟨{ d with rows := d.rows.map (fun r =>
        if r.id = nid then { r with title := some title, content := some content } else r) },
      ?_, rfl, by simp, ?_⟩
    · rw [hupd h0, hd]
      simp [updateNotePrepared, hp, hf]
    · intro i r hr
      simp only [List.getElem?_map, hr, Option.map_some', Option.some.injEq]
      by_cases hid : r.id = nid
      · simp only [hid, if_true]
      · simp only [hid, if_false]

theorem editSession_persists_witness :
    "see you".toList ≠ [] ∧
      ((2 : Int) > 0 →
        (editSession sampleDesk Engine.healthy Engine.healthy 5 2 "Job".toList
            "see you".toList).db
          = (updateNotePrepared sampleDesk.db Engine.healthy 2 "Job".toList
              "see you".toList).2) :=
  ⟨by decide,
   (editSession_persists sampleDesk Engine.healthy Engine.healthy 5 2 "Job".toList
      "see you".toList (by decide)).2.1⟩

/-! ## Scrolling -/

theorem validate_bounds (sb : ScrollBar) (h : sb.nMin ≤ sb.nMax) :
    sb.validate.nMin = sb.nMin ∧ sb.validate.nMax = sb.nMax ∧
      sb.nMin ≤ sb.validate.nPos ∧ sb.validate.nPos ≤ sb.nMax := by
  refine ⟨rfl, rfl, ?_, ?_⟩
  · simp only [ScrollBar.validate]
    split_ifs <;> omega
  · simp only [ScrollBar.validate]
    split_ifs <;> omega

theorem scrollInv_render (a : App) (notes : List Note) (h : 0 ≤ a.g_scrollY) :
    scrollInv (renderNotes (clearCards a) notes) := by
  generalize ht : (renderNotes (clearCards a) notes).g_totalHeight = total
  have hsb : (renderNotes (clearCards a) notes).sb = setScrollRangePage a.sb 0 total 500 := by
    rw [← ht]; rfl
  have hy : (renderNotes (clearCards a) notes).g_scrollY = a.g_scrollY := rfl
  unfold scrollInv
  rw [hsb, ht, hy]
  by_cases hneg : (0 : Int) > total
  · have e : setScrollRangePage a.sb 0 total 500
        = ({ a.sb with nPage := 500, nMin := 0, nMax := 0 } : ScrollBar).validate := by
      simp [setScrollRangePage, hneg]
    obtain ⟨v1, v2, v3, v4⟩ := validate_bounds
      ({ a.sb with nPage := 500, nMin := 0, nMax := 0 } : ScrollBar) (le_refl _)
    rw [e, if_pos hneg]
    exact ⟨v1, v3, v4, v2, h⟩
  · have e : setScrollRangePage a.sb 0 total 500
        = ({ a.sb with nPage := 500, nMin := 0, nMax := total } : ScrollBar).validate := by
      simp [setScrollRangePage, hneg]
    obtain ⟨v1, v2, v3, v4⟩ := validate_bounds
      ({ a.sb with nPage := 500, nMin := 0, nMax := total } : ScrollBar)
      (show (0 : Int) ≤ total by omega)
    rw [e, if_neg hneg]
    exact ⟨v1, v3, v4, v2, h⟩

theorem setScrollPos_bounds (a : App) (h : scrollInv a) (nPos : Int) :
    (setScrollPos a.sb nPos).nMin = 0 ∧ (setScrollPos a.sb nPos).nMax = a.sb.nMax ∧
      0 ≤ (setScrollPos a.sb nPos).nPos ∧ (setScrollPos a.sb nPos).nPos ≤ a.sb.nMax := by
  obtain ⟨h1, h2, h3, _, _⟩ := h
  obtain ⟨v1, v2, v3, v4⟩ := validate_bounds ({ a.sb with nPos := nPos } : ScrollBar)
    (show a.sb.nMin ≤ a.sb.nMax by omega)
  have hv3 : a.sb.nMin ≤ (setScrollPos a.sb nPos).nPos := v3
  have hv4 : (setScrollPos a.sb nPos).nPos ≤ a.sb.nMax := v4
  rw [h1] at hv3
  exact ⟨v1.trans h1, v2, hv3, hv4⟩

/-- The scroll position `WM_VSCROLL` asks the scroll bar for -/
theorem onVScroll_cases (a : App) (code : ScrollCode) (nTrackPos : Int) :
    ∃ nPos : Int,
      (onVScroll a code nTrackPos).sb = setScrollPos a.sb nPos ∧
      (onVScroll a code nTrackPos).g_totalHeight = a.g_totalHeight ∧
      (((setScrollPos a.sb nPos).nPos ≠ a.sb.nPos ∧
          (onVScroll a code nTrackPos).g_scrollY = (setScrollPos a.sb nPos).nPos) ∨
        ((setScrollPos a.sb nPos).nPos = a.sb.nPos ∧
          (onVScroll a code nTrackPos).g_scrollY = a.g_scrollY)) := by
  unfold onVScroll
  simp only
  split_ifs with hne
  · exact ⟨_, rfl, rfl, Or.inl ⟨hne, rfl⟩⟩
  · refine ⟨_, rfl, rfl, Or.inr ⟨?_, rfl⟩⟩
    exact not_not.mp hne

theorem scrollInv_onVScroll (a : App) (h : scrollInv a) (code : ScrollCode) (nTrackPos : Int) :
    scrollInv (onVScroll a code nTrackPos) := by
  obtain ⟨nPos, hsb, htot, hcase⟩ := onVScroll_cases a code nTrackPos
  obtain ⟨b1, b2, b3, b4⟩ := setScrollPos_bounds a h nPos
  obtain ⟨_, _, _, h4, h5⟩ := h
  unfold scrollInv
  rw [hsb, htot]
  refine ⟨b1, b3, by rw [b2]; exact b4, by rw [b2]; exact h4, ?_⟩
  rcases hcase with ⟨_, e⟩ | ⟨_, e⟩
  · rw [e]; exact b3
  · rw [e]; exact h5

theorem scrollInv_run (events : List Event) :
    ∀ a : App, scrollInv a → scrollInv (run a events) := by
  induction events with
  | nil => intro a h; exact h
  | cons e es ih =>
    intro a h
    have step : scrollInv (handle a e) := by
      cases e with
      | scroll code t => exact scrollInv_onVScroll a h code t
      | refresh notes => exact scrollInv_render a notes h.2.2.2.2
    exact ih _ step

theorem scrollInv_startup (db : Option Db) (notes : List Note) :
    scrollInv (startup db notes) :=
  scrollInv_render (created db) notes (le_refl _)

/-- What does hold of the scroll offset in every state reachable from start-up
by scroll events interleaved with refreshes over any note lists: `g_scrollY` is
not negative, and a scroll event that moves the scroll position leaves it at
most `g_totalHeight`. -/
theorem scroll_offset_bounds (db : Option Db) (notes : List Note) (events : List Event)
    (code : ScrollCode) (nTrackPos : Int) :
    0 ≤ (run (startup db notes) events).g_scrollY ∧
      ((onVScroll (run (startup db notes) events) code nTrackPos).sb.nPos
          ≠ (run (startup db notes) events).sb.nPos →
        0 ≤ (onVScroll (run (startup db notes) events) code nTrackPos).g_scrollY ∧
        (onVScroll (run (startup db notes) events) code nTrackPos).g_scrollY
          ≤ (onVScroll (run (startup db notes) events) code nTrackPos).g_totalHeight) := by
  have hinv := scrollInv_run events _ (scrollInv_startup db notes)
  generalize run (startup db notes) events = a at hinv ⊢
  refine ⟨hinv.2.2.2.2, ?_⟩
  intro hmove
  obtain ⟨nPos, hsb, htot, hcase⟩ := onVScroll_cases a code nTrackPos
  obtain ⟨_, _, b3, b4⟩ := setScrollPos_bounds a hinv nPos
  obtain ⟨_, h2, h3, h4, _⟩ := hinv
  rw [hsb] at hmove
  rcases hcase with ⟨_, e⟩ | ⟨hsame, _⟩
  · rw [e, htot]
    refine ⟨b3, ?_⟩
    by_cases hneg : (0 : Int) > a.g_totalHeight
    · rw [if_pos hneg] at h4
      omega
    · rw [if_neg hneg] at h4
      omega
  · exact absurd hsame hmove

theorem scroll_offset_bounds_witness :
    (onVScroll (run (startup (some sampleDb) tenNotes) []) .SB_THUMBTRACK 200).sb.nPos
        ≠ (run (startup (some sampleDb) tenNotes) []).sb.nPos ∧
      0 ≤ (onVScroll (run (startup (some sampleDb) tenNotes) []) .SB_THUMBTRACK 200).g_scrollY ∧
      (onVScroll (run (startup (some sampleDb) tenNotes) []) .SB_THUMBTRACK 200).g_scrollY
        ≤ (onVScroll (run (startup (some sampleDb) tenNotes) []) .SB_THUMBTRACK
            200).g_totalHeight :=
  ⟨by decide,
   (scroll_offset_bounds (some sampleDb) tenNotes [] .SB_THUMBTRACK 200).2 (by decide)⟩

theorem setScrollPos_stuck (nPos : Int) : (setScrollPos ⟨0, 90, 91, 0⟩ nPos).nPos = 0 := by
  simp only [setScrollPos, ScrollBar.validate]
  split_ifs <;> omega

/-- C10, the program at the failing inputs. Ten notes are shown, the thumb is
dragged to 200, and a filter change leaves two notes: `g_scrollY` stays 200
while `g_totalHeight` becomes 90, the scroll bar is back at position 0, both
cards lie from y = -150 to y = -40, above the window, and no scroll request
moves `g_scrollY` any more. With twenty notes that do not change, the thumb
dragged to the end of the range, 871, and a plain refresh, `g_scrollY` is 871
and `g_totalHeight` is 499. -/
theorem scroll_offset_exceeds_height :
    (scrolledThenFiltered.g_scrollY = 200 ∧ scrolledThenFiltered.g_totalHeight = 90 ∧
      ¬ (0 ≤ scrolledThenFiltered.g_scrollY ∧
          scrolledThenFiltered.g_scrollY ≤ scrolledThenFiltered.g_totalHeight) ∧
      scrolledThenFiltered.sb.nPos = 0 ∧
      scrolledThenFiltered.g_cards.map (fun c => (c.rc.top, c.rc.bottom))
        = [(-150, -40), (-150, -40)] ∧
      ∀ (code : ScrollCode) (nTrackPos : Int),
        (onVScroll scrolledThenFiltered code nTrackPos).g_scrollY = 200) ∧
    (scrolledThenRefreshed.g_scrollY = 871 ∧ scrolledThenRefreshed.g_totalHeight = 499 ∧
      scrolledThenRefreshed.sb.nPos = 0 ∧
      ¬ (0 ≤ scrolledThenRefreshed.g_scrollY ∧
          scrolledThenRefreshed.g_scrollY ≤ scrolledThenRefreshed.g_totalHeight)) := by
  refine ⟨⟨by decide, by decide, by decide, by decide, by decide, ?_⟩, by decide⟩
  intro code t
  obtain ⟨nPos, _, _, hcase⟩ := onVScroll_cases scrolledThenFiltered code t
  have hsb : scrolledThenFiltered.sb = ⟨0, 90, 91, 0⟩ := by decide
  rcases hcase with ⟨hmove, _⟩ | ⟨_, e⟩
  · rw [hsb, setScrollPos_stuck] at hmove
    exact absurd rfl hmove
  · rw [e]
    decide

/-! ## Refresh -/

theorem validate_mk_idem (lo hi page pos : Int) (h : lo ≤ hi) :
    (⟨lo, hi, page, (ScrollBar.validate ⟨lo, hi, page, pos⟩).nPos⟩ : ScrollBar).validate
      = ScrollBar.validate ⟨lo, hi, page, pos⟩ := by
  simp only [ScrollBar.validate, ScrollBar.mk.injEq, true_and]
  split_ifs <;> omega

theorem setScrollRangePage_idem (sb : ScrollBar) (nMin nMax nPage : Int) :
    setScrollRangePage (setScrollRangePage sb nMin nMax nPage) nMin nMax nPage
      = setScrollRangePage sb nMin nMax nPage := by
  by_cases h : nMin > nMax
  · have e : ∀ s : ScrollBar, setScrollRangePage s nMin nMax nPage
        = ScrollBar.validate ⟨0, 0, nPage, s.nPos⟩ := by
      intro s; simp [setScrollRangePage, h]
    rw [e sb, e]
    exact validate_mk_idem 0 0 nPage sb.nPos (le_refl _)
  · have e : ∀ s : ScrollBar, setScrollRangePage s nMin nMax nPage
        = ScrollBar.validate ⟨nMin, nMax, nPage, s.nPos⟩ := by
      intro s; simp [setScrollRangePage, h]
    rw [e sb, e]
    exact validate_mk_idem nMin nMax nPage sb.nPos (by omega)

theorem App.ext_fields (x y : App) (h1 : x.db = y.db) (h2 : x.hSearchBox = y.hSearchBox)
    (h3 : x.g_cards = y.g_cards) (h4 : x.g_scrollY = y.g_scrollY)
    (h5 : x.g_totalHeight = y.g_totalHeight) (h6 : x.cardWins = y.cardWins)
    (h7 : x.sb = y.sb) : x = y := by
  cases x; cases y; simp_all

theorem showNotes_twice (a : App) (eng : Engine) (search : Text) :
    showNotes (showNotes a eng search) eng search = showNotes a eng search :=
  App.ext_fields _ _ rfl rfl rfl rfl rfl rfl
    (setScrollRangePage_idem a.sb 0 (showNotes a eng search).g_totalHeight 500)

/-- C11: refresh is idempotent. Running `showNotes` a second time, with the
store, the engine's answers, the search text and the scroll offset as they
were, leaves the same `g_cards` (same rectangles and ids in the same order) and
the same `g_totalHeight` as running it once; indeed it leaves the whole state
of the main window as it was, also when run as `MSG_REFRESH`. -/
theorem showNotes_idempotent (a : App) (eng : Engine) (search : Text) :
    (showNotes (showNotes a eng search) eng search).g_cards
        = (showNotes a eng search).g_cards ∧
      (showNotes (showNotes a eng search) eng search).g_totalHeight
        = (showNotes a eng search).g_totalHeight ∧
      showNotes (showNotes a eng search) eng search = showNotes a eng search ∧
      onRefresh (onRefresh a eng) eng = onRefresh a eng :=
  ⟨rfl, rfl, showNotes_twice a eng search, showNotes_twice a eng (searchBuffer a)⟩

theorem take_eq_nil_of_take_le {t : Text} {m n : Nat} (hmn : 0 < m)
    (h : t.take m = []) : t.take n = [] := by
  cases t with
  | nil => simp
  | cons c s =>
    cases m with
    | zero => exact absurd hmn (Nat.lt_irrefl 0)
    | succ k => simp at h

/-- The text the two refresh handlers make `showNotes` query with -/
theorem queryText_searchBuffer (a : App) (t : Text) (h : a.hSearchBox = some t) :
    queryText a (searchBuffer a) = t.take 255 := by
  simp only [queryText, searchBuffer, h, getWindowTextA]
  by_cases he : (List.take (256 - 1) t).isEmpty = true
  · have hnil : List.take (256 - 1) t = [] := List.isEmpty_iff.mp he
    rw [if_pos he, take_eq_nil_of_take_le (by decide) hnil]
    exact hnil.symm
  · rw [if_neg he]

/-- C12, as amended: with the text `t` in the search box, the refresh run on
`MSG_REFRESH` and the one run on `EN_CHANGE` query the store with the first 255
characters of `t`, which is `t` itself when `t` has at most 255 characters. -/
theorem refresh_query_text (a : App) (eng : Engine) (t : Text) (h : a.hSearchBox = some t) :
    onRefresh a eng = renderNotes (clearCards a) (fetchNotes a.db eng (t.take 255)) ∧
      onSearchChange a eng = renderNotes (clearCards a) (fetchNotes a.db eng (t.take 255)) ∧
      (t.length ≤ 255 → t.take 255 = t) := by
  have e : showNotes a eng (searchBuffer a)
      = renderNotes (clearCards a) (fetchNotes a.db eng (queryText a (searchBuffer a))) := rfl
  rw [queryText_searchBuffer a t h] at e
  exact ⟨e, e, fun hl => List.take_of_length_le hl⟩

theorem refresh_query_text_witness :
    milkSearchApp.hSearchBox = some "milk".toList ∧
      (onRefresh milkSearchApp Engine.healthy
          = renderNotes (clearCards milkSearchApp)
              (fetchNotes milkSearchApp.db Engine.healthy ("milk".toList.take 255)) ∧
        onSearchChange milkSearchApp Engine.healthy
          = renderNotes (clearCards milkSearchApp)
              (fetchNotes milkSearchApp.db Engine.healthy ("milk".toList.take 255)) ∧
        ("milk".toList.length ≤ 255 → "milk".toList.take 255 = "milk".toList)) :=
  ⟨rfl, refresh_query_text milkSearchApp Engine.healthy "milk".toList rfl⟩

/-- C12, counterexample: with 256 characters in the search box, the text the
refresh handlers make `showNotes` pass to `fetchNotes` has 255 characters and
is not the text of the search box. -/
theorem refresh_query_counterexample :
    longSearchApp.hSearchBox = some longSearch ∧
      (queryText longSearchApp (searchBuffer longSearchApp)).length = 255 ∧
      queryText longSearchApp (searchBuffer longSearchApp) ≠ longSearch := by
  have e : queryText longSearchApp (searchBuffer longSearchApp) = longSearch.take 255 :=
    queryText_searchBuffer longSearchApp longSearch rfl
  have hlen : longSearch.length = 256 := List.length_replicate 256 'a'
  have hl : (longSearch.take 255).length = 255 := by
    rw [List.length_take, hlen]
    decide
  refine ⟨rfl, by rw [e]; exact hl, ?_⟩
  intro h
  rw [e] at h
  have h2 := congrArg List.length h
  rw [hl, hlen] at h2
  exact absurd h2 (by decide)

/-! ## Update of a missing id -/

theorem map_update_of_absent (rows : List Row) (id : Int) (title content : Text)
    (h : ∀ r ∈ rows, r.id ≠ id) :
    rows.map (fun r =>
        if r.id = id then { r with title := some title, content := some content } else r)
      = rows := by
  induction rows with
  | nil => rfl
  | cons r rs ih =>
    have hr : r.id ≠ id := h r (List.mem_cons_self r rs)
    have hrs : ∀ x ∈ rs, x.id ≠ id := fun x hx => h x (List.mem_cons_of_mem r hx)
    simp only [List.map_cons, if_neg hr, ih hrs]

/-- C13: with the database open and an id that no stored note has,
`updateNotePrepared(id, title, content)` leaves the store as it was, the same
rows with the same ids, titles and contents and no new row, so that
`fetchNotes` returns what it returned before; and it returns true whenever the
engine prepares and steps the statement without error. -/
theorem update_of_missing_id (d : Db) (eng : Engine) (id : Int) (title content : Text)
    (h : ∀ r ∈ d.rows, r.id ≠ id) :
    (updateNotePrepared (some d) eng id title content).2 = some d ∧
      (∀ (e : Engine) (q : Text),
        fetchNotes (updateNotePrepared (some d) eng id title content).2 e q
          = fetchNotes (some d) e q) ∧
      (eng.prepareOk = true → eng.failAt ≠ some 0 →
        (updateNotePrepared (some d) eng id title content).1 = true) := by
  have hdb : (updateNotePrepared (some d) eng id title content).2 = some d := by
    unfold updateNotePrepared
    by_cases h1 : eng.prepareOk = true
    · by_cases h2 : eng.failAt = some 0
      · simp [h1, h2]
      · simp [h1, h2, map_update_of_absent d.rows id title content h]
    · simp [h1]
  refine ⟨hdb, ?_, ?_⟩
  · intro e q
    rw [hdb]
  · intro h1 h2
    simp [updateNotePrepared, h1, h2]

theorem update_of_missing_id_witness :
    (∀ r ∈ sampleDb.rows, r.id ≠ 7) ∧
      ((updateNotePrepared (some sampleDb) Engine.healthy 7 "Ghost".toList "boo".toList).2
          = some sampleDb ∧
        (∀ (e : Engine) (q : Text),
          fetchNotes
              (updateNotePrepared (some sampleDb) Engine.healthy 7 "Ghost".toList
                "boo".toList).2 e q
            = fetchNotes (some sampleDb) e q) ∧
        (Engine.healthy.prepareOk = true → Engine.healthy.failAt ≠ some 0 →
          (updateNotePrepared (some sampleDb) Engine.healthy 7 "Ghost".toList
            "boo".toList).1 = true)) :=
  ⟨by decide,
   update_of_missing_id sampleDb Engine.healthy 7 "Ghost".toList "boo".toList (by decide)⟩

/-! ## The content preview -/

theorem showStep_wins (st : Cursor) (n : Note) :
    (showStep st n).wins
      = st.wins ++ [⟨st.x, st.y, cardW, cardH, n.title, contentPreview n.content⟩] := by
  unfold showStep
  simp only
  split <;> rfl

theorem foldl_showStep_previews (notes : List Note) :
    ∀ st : Cursor, ((notes.foldl showStep st).wins).map CardWin.preview
      = st.wins.map CardWin.preview ++ notes.map (fun n => contentPreview n.content) := by
  induction notes with
  | nil => intro st; simp
  | cons n ns ih =>
    intro st
    rw [List.foldl_cons, ih, showStep_wins]
    simp

theorem renderNotes_previews (a : App) (notes : List Note) :
    (renderNotes (clearCards a) notes).cardWins.map CardWin.preview
      = notes.map (fun n => contentPreview n.content) := by
  have h := foldl_showStep_previews notes
    { x := margin, y := 50 - a.g_scrollY, col := 0, cards := [], wins := [] }
  simpa using h

/-- C14: the preview texts on the cards `showNotes` renders are, in order, the
previews of the notes' contents, and the preview of a content `c` is `c` itself
when `c` has at most 300 characters and otherwise its first 300 characters
followed by "..."; so a preview has at most 303 characters and starts with the
first min(|c|, 300) characters of `c`. -/
theorem card_preview (a : App) (notes : List Note) (c : Text) :
    (renderNotes (clearCards a) notes).cardWins.map CardWin.preview
        = notes.map (fun n => contentPreview n.content) ∧
      (c.length ≤ 300 → contentPreview c = c) ∧
      (300 < c.length → contentPreview c = c.take 300 ++ ['.', '.', '.']) ∧
      (contentPreview c).length ≤ 303 ∧
      c.take (min c.length 300) <+: contentPreview c := by
  refine ⟨renderNotes_previews a notes, ?_, ?_, ?_, ?_⟩
  · intro h
    unfold contentPreview
    rw [if_neg (by omega)]
  · intro h
    unfold contentPreview
    rw [if_pos h]
  · unfold contentPreview
    split
    · simp only [List.length_append, List.length_take, List.length_cons, List.length_nil]
      omega
    · omega
  · unfold contentPreview
    split
    · rename_i h
      rw [Nat.min_eq_right (by omega)]
      exact List.prefix_append _ _
    · rename_i h
      rw [Nat.min_eq_left (by omega), List.take_length]

/-! ## The total height -/

theorem renderNotes_finalY (a : App) (notes : List Note) :
    (notes.foldl showStep
        { x := margin, y := 50 - a.g_scrollY, col := 0, cards := [], wins := [] }).y
      = 50 - a.g_scrollY + 120 * ((notes.length : Int) / 2) := by
  have h := (foldl_showStep_atIndex a.g_scrollY notes 0 _
    (startCursor_atIndex a.g_scrollY [] [])).1
  rw [Nat.zero_add] at h
  exact h.2.2

theorem renderNotes_totalHeight (a : App) (notes : List Note) :
    (renderNotes (clearCards a) notes).g_totalHeight
      = 50 - a.g_scrollY + 120 * ((notes.length : Int) / 2) + 120 := by
  have h := renderNotes_finalY a notes
  have e : (renderNotes (clearCards a) notes).g_totalHeight
      = (notes.foldl showStep
          { x := margin, y := 50 - a.g_scrollY, col := 0, cards := [], wins := [] }).y
        + cardH + margin := rfl
  rw [e, h]
  simp only [cardH, margin]
  omega

theorem setScrollRangePage_range (sb : ScrollBar) (nMax nPage : Int) (h : 0 ≤ nMax) :
    (setScrollRangePage sb 0 nMax nPage).nMin = 0 ∧
      (setScrollRangePage sb 0 nMax nPage).nMax = nMax := by
  have hn : ¬ ((0 : Int) > nMax) := by omega
  simp [setScrollRangePage, hn, ScrollBar.validate]

/-- C15: for every note list of length `n` and scroll offset `s = g_scrollY`,
the `g_totalHeight` that `showNotes` stores is the final `y` of the layout
loop plus 110 plus 10, that is 50 - s + 120 * (n div 2) + 120; `showNotes`
hands it to `SetScrollInfo` as range maximum with minimum 0 and page 500, and
the scroll bar keeps the range 0 .. `g_totalHeight` when that is not negative;
and it is at least the bottom edge of every card plus the margin 10. -/
theorem total_content_height (a : App) (notes : List Note) :
    (renderNotes (clearCards a) notes).g_totalHeight
        = (notes.foldl showStep
            { x := margin, y := 50 - a.g_scrollY, col := 0, cards := [], wins := [] }).y
          + 110 + 10 ∧
      (renderNotes (clearCards a) notes).g_totalHeight
        = 50 - a.g_scrollY + 120 * ((notes.length : Int) / 2) + 120 ∧
      (renderNotes (clearCards a) notes).sb
        = setScrollRangePage a.sb 0
            (50 - a.g_scrollY + 120 * ((notes.length : Int) / 2) + 120) 500 ∧
      (0 ≤ (renderNotes (clearCards a) notes).g_totalHeight →
        (renderNotes (clearCards a) notes).sb.nMin = 0 ∧
        (renderNotes (clearCards a) notes).sb.nMax
          = (renderNotes (clearCards a) notes).g_totalHeight) ∧
      ∀ ci ∈ (renderNotes (clearCards a) notes).g_cards,
        ci.rc.bottom + 10 ≤ (renderNotes (clearCards a) notes).g_totalHeight := by
  have ht := renderNotes_totalHeight a notes
  refine ⟨rfl, ht, ?_, ?_, ?_⟩
  · rw [← ht]; rfl
  · intro h0
    have hsb : (renderNotes (clearCards a) notes).sb
        = setScrollRangePage a.sb 0 (renderNotes (clearCards a) notes).g_totalHeight 500 := rfl
    rw [hsb]
    exact setScrollRangePage_range a.sb _ 500 h0
  · intro ci hci
    rw [renderNotes_cards] at hci
    obtain ⟨i, hi⟩ := List.mem_iff_getElem?.mp hci
    obtain ⟨note, hnote, rfl⟩ := layout_getElem?_some hi
    have hlt : i < notes.length := by
      rcases Nat.lt_or_ge i notes.length with h | h
      · exact h
      · rw [List.getElem?_eq_none h] at hnote; cases hnote
    rw [ht]
    simp only [gridCard, gridRect]
    omega

/-! ## Two editors open together -/

/-- C16, the program at the failing inputs. Two editors for new notes are open
together, the user writes ("A", "first") into editor 5 and ("B", "second")
into editor 6; the static handles of `NoteWndProc` then point to the fields of
editor 6, the one created last. Closing 5 and then 6 stores ("B", "second")
twice and ("A", "first") never. With editor 5 opened on note 1 and editor 6 on
note 2, closing 5 leaves note 1 as it was although its content field holds
"milk eggs bread", and writes the content "moved" of editor 6 to note 2. -/
theorem shared_statics_two_editors :
    (⟨13, 5, "first".toList⟩ ∈ (editorRun Engine.healthy sampleDesk
        (twoNewEditors.take 6)).controls ∧
      (editorRun Engine.healthy sampleDesk (twoNewEditors.take 6)).hContentEdit = some 17 ∧
      (editorRun Engine.healthy sampleDesk twoNewEditors).db =
        some { rows := sampleDb.rows ++
                 [⟨4, some "B".toList, some "second".toList⟩,
                  ⟨5, some "B".toList, some "second".toList⟩],
               seq := 5 }) ∧
    (⟨13, 5, "milk eggs bread".toList⟩ ∈ (editorRun Engine.healthy sampleDesk
        (twoCardEditors.take 4)).controls ∧
      (editorRun Engine.healthy sampleDesk (twoCardEditors.take 4)).noteId = 2 ∧
      (editorRun Engine.healthy sampleDesk twoCardEditors).db =
        some { rows := [⟨1, some "Shopping".toList, some "milk eggs".toList⟩,
                        ⟨2, some "Work".toList, some "moved".toList⟩,
                        ⟨3, some "Todo".toList, some "call home".toList⟩],
               seq := 3 }) := by
  decide

end Notepad
